import Mathlib

/-!
Verification of the CIF (Content Ingestion Framework) ingestion pipeline.

This file gives a shallow embedding of the catalog state machine, the intake
staging/promotion logic, the bucket connector's line chunker, the CSV row
extractor, the worker dispatch and the search-SQL construction of the Python
sources under `cif/`, together with theorems settling the specification
claims about them.

Modelling conventions:
- timestamps are natural numbers counting microseconds (the code derives
  `generation_id` via `unix_micros(timestamp_trunc(created_on, MICROSECOND))`,
  which on this representation is the identity);
- database tables are lists of typed rows, and SQL statements are embedded as
  executable Lean functions on those lists;
- fresh UUID generation (`uuid4().hex`) is modelled by an explicit supply
  `Nat → String` of identifier strings;
- SQL text built by string formatting is modelled as Lean `String`
  concatenation, and Python's `str.replace` as an explicit recursive function.
-/

/-- Metadata fingerprint of one artifact revision (cif/util.py `Fingerprint`,
reconstructed from its uses: `version`, `content_length`, `content_type`). -/
structure Fingerprint where
  content_type : String
  content_length : Nat
  version : String
deriving DecidableEq, Repr

/-- One row of the `stage` table. -/
structure StageRow where
  stage_id : String
  batch_id : Nat
  source_id : String
  external_id : String
  version : String
  content_length : Nat
  content_type : String
  created_on : Nat
  artifact_id : String
deriving DecidableEq, Repr

/-- One row of the `artifact` table. -/
structure ArtifactRow where
  artifact_id : String
  source_id : String
  external_id : String
  version : String
  content_type : String
  content_length : Nat
  created_on : Nat
deriving DecidableEq, Repr

/-- One row of the `generation` table. -/
structure GenerationRow where
  source_id : String
  generation_id : Nat
  artifact_id : String
  created_on : Nat
deriving DecidableEq, Repr

/-- The mutable catalog tables touched by intake and promotion. -/
structure CatalogState where
  stage : List StageRow
  artifact : List ArtifactRow
  generation : List GenerationRow
deriving Repr

/-- Rows of `stage` selected by the (stage_id, batch_id, source_id) filter that
every pass of `Catalog._insert_artifact_generation_batch_helper` applies. -/
def inBatch (stage_id : String) (batch_id : Nat) (source_id : String) (s : StageRow) : Bool :=
  s.stage_id = stage_id && s.batch_id = batch_id && s.source_id = source_id

/-- Scalar subquery of promotion pass 1: the first `artifact` row agreeing with
the stage row on (source_id, external_id, version). -/
def findMatchingArtifact (artifact : List ArtifactRow) (s : StageRow) : Option ArtifactRow :=
  artifact.find? fun a =>
    a.source_id = s.source_id && a.external_id = s.external_id && a.version = s.version

/-- Promotion pass 1 (identity reconciliation), applied to one stage row: the
`update stage ... set artifact_id = (select a0.artifact_id ...)` statement
rewrites the provisional artifact_id of every batch row for which a matching
artifact exists; other rows are untouched. -/
def pass1Row (artifact : List ArtifactRow) (stage_id : String) (batch_id : Nat)
    (source_id : String) (s : StageRow) : StageRow :=
  if inBatch stage_id batch_id source_id s then
    match findMatchingArtifact artifact s with
    | some a => { s with artifact_id := a.artifact_id }
    | none => s
  else s

/-- Projection of a stage row to the `artifact` columns inserted by promotion
pass 2. -/
def stageToArtifact (s : StageRow) : ArtifactRow :=
  { artifact_id := s.artifact_id
    source_id := s.source_id
    external_id := s.external_id
    version := s.version
    content_type := s.content_type
    content_length := s.content_length
    created_on := s.created_on }

/-- Promotion pass 2 (`insert or ignore into artifact`): rows whose primary key
`artifact_id` already exists in the table are silently skipped. -/
def insertOrIgnoreArtifacts (artifact : List ArtifactRow) (rows : List ArtifactRow) :
    List ArtifactRow :=
  rows.foldl
    (fun acc r => if acc.any (fun a => a.artifact_id = r.artifact_id) then acc else acc ++ [r])
    artifact

/-- Projection of a stage row to the `generation` row inserted by promotion
pass 3; `generation_id` is `unix_micros(timestamp_trunc(created_on, MICROSECOND))`,
which is the identity on our microsecond timestamps. -/
def stageToGeneration (s : StageRow) : GenerationRow :=
  { source_id := s.source_id
    generation_id := s.created_on
    artifact_id := s.artifact_id
    created_on := s.created_on }

/-- The three-pass promotion transaction
`Catalog._insert_artifact_generation_batch_helper`: pass 1 rewrites stage
artifact_ids in place, pass 2 inserts the batch's rows into `artifact` with
insert-or-ignore, pass 3 inserts one `generation` row per batch row. -/
def insert_artifact_generation_batch (st : CatalogState) (stage_id : String)
    (source_id : String) (batch_id : Nat) : CatalogState :=
  let stage1 := st.stage.map (pass1Row st.artifact stage_id batch_id source_id)
  let batchRows := stage1.filter (inBatch stage_id batch_id source_id)
  { stage := stage1
    artifact := insertOrIgnoreArtifacts st.artifact (batchRows.map stageToArtifact)
    generation := st.generation ++ batchRows.map stageToGeneration }

/-- Chunk loop of `BucketConnector.calc_line_chunks`, iterating over the lines
of the blob opened in text mode. Lines are represented by their encoded byte
lengths. Arguments mirror the Python locals: `line_num` is the 1-based index of
the next line, `start` and `bufLen` the current chunk start offset and buffered
byte count. Returns the chunks yielded inside the loop together with the value
of `start` after the loop. -/
def lineChunksLoop (lines_per_chunk : Nat) :
    Nat → Nat → Nat → List Nat → List (Nat × Nat) × Nat
  | _, start, _, [] => ([], start)
  | line_num, start, bufLen, l :: ls =>
    let bufLen' := bufLen + l
    if line_num % lines_per_chunk = 0 then
      let e := start + bufLen'
      let rest := lineChunksLoop lines_per_chunk (line_num + 1) e 0 ls
      ((start, e - 1) :: rest.1, rest.2)
    else
      lineChunksLoop lines_per_chunk (line_num + 1) start bufLen' ls

/-- Embedding of `BucketConnector.calc_line_chunks`: the blob's content is the
list of its lines' byte lengths and `size` is `blob.size`. After the line loop,
a final chunk `(start, size)` is yielded when `start < size`. -/
def calc_line_chunks (lineLens : List Nat) (lines_per_chunk : Nat) (size : Nat) :
    List (Nat × Nat) :=
  let r := lineChunksLoop lines_per_chunk 1 0 0 lineLens
  r.1 ++ (if r.2 < size then [(r.2, size)] else [])

/-- Inner exists-subquery of `Catalog.count_inserted_updated`: a stage row is
"unchanged" when the supplied generation, joined with `artifact` on
(source_id, artifact_id), contains an artifact agreeing with the stage row on
(external_id, version). -/
def stageRowBoundInGeneration (st : CatalogState) (generation_id : Nat) (s : StageRow) : Bool :=
  st.generation.any fun g =>
    g.generation_id = generation_id && g.source_id = s.source_id &&
      st.artifact.any fun a =>
        a.source_id = g.source_id && a.artifact_id = g.artifact_id &&
          a.external_id = s.external_id && a.version = s.version

/-- Embedding of `Catalog.count_inserted_updated`: stage rows of the cycle for
which no corresponding artifact is bound to the supplied generation. -/
def count_inserted_updated (st : CatalogState) (stage_id source_id : String)
    (generation_id : Nat) : Nat :=
  (st.stage.filter fun s =>
    s.stage_id = stage_id && s.source_id = source_id &&
      !stageRowBoundInGeneration st generation_id s).length

/-- Embedding of `Catalog.count_deleted`: (generation, artifact) join pairs of
the supplied generation for which no stage row of the cycle agrees on
(source_id, external_id, version). -/
def count_deleted (st : CatalogState) (stage_id source_id : String)
    (generation_id : Nat) : Nat :=
  ((st.generation.filter fun g =>
      g.source_id = source_id && g.generation_id = generation_id).flatMap fun g =>
    (st.artifact.filter fun a =>
      g.source_id = a.source_id && g.artifact_id = a.artifact_id).filter fun a =>
        !st.stage.any fun s =>
          s.stage_id = stage_id && s.source_id = source_id && s.source_id = a.source_id &&
            s.external_id = a.external_id && s.version = a.version).length

/-- Greatest generation_id of a source, the `generation_id` of the row returned
by `Catalog.get_latest_generation` (which orders by generation_id descending and
takes the first row); `none` when the source has no generations. -/
def latestGenerationId (st : CatalogState) (source_id : String) : Option Nat :=
  ((st.generation.filter fun g => g.source_id = source_id).map
    (fun g => g.generation_id)).max?

/-- Modelled from the spec: `cif/util.py` is not among the sources, so its
`batcher` helper is reconstructed from section 4.4 ("buffering up to BATCH_SIZE
tuples per batch") and the unit tests `test_batcher_no_remainder` and
`test_batcher_remainder`: it splits a sequence into consecutive batches of
`batch_size` elements, the last batch possibly shorter. Fuelled helper. -/
def batcherFuel {α : Type} (batch_size : Nat) : Nat → List α → List (List α)
  | 0, _ => []
  | _ + 1, [] => []
  | fuel + 1, x :: xs =>
    (x :: xs).take batch_size :: batcherFuel batch_size fuel ((x :: xs).drop batch_size)

/-- Modelled from the spec: body of `batcher`, with the list length as
structural fuel (each step consumes at least one element since the batch size
is positive). -/
def batcher {α : Type} (batch_size : Nat) (xs : List α) : List (List α) :=
  if batch_size = 0 then [] else batcherFuel batch_size xs.length xs

/-- Spanner mutation-cap batch size `Intake.BATCH_SIZE` from cif/intake.py. -/
def Intake.BATCH_SIZE : Nat := 6153

/-- Stage rows inserted by `Intake._stage` for one intake cycle: the connector
listing is split into batches of `Intake.BATCH_SIZE`, and
`Catalog.insert_stage_batch` inserts each tuple with a provisional fresh
artifact_id (`uuid4().hex`, modelled by the supply `prov`). -/
def stagedRows (stage_id source_id : String) (created_on : Nat)
    (listing : List (String × Fingerprint)) (prov : Nat → String) : List StageRow :=
  (batcher Intake.BATCH_SIZE listing).enum.flatMap fun bi =>
    bi.2.enum.map fun ei =>
      { stage_id := stage_id
        batch_id := bi.1
        source_id := source_id
        external_id := ei.2.1
        version := ei.2.2.version
        content_length := ei.2.2.content_length
        content_type := ei.2.2.content_type
        created_on := created_on
        artifact_id := prov (bi.1 * Intake.BATCH_SIZE + ei.1) }

/-- State after `Intake._stage`: the staged rows are appended to `stage`; no
other table is touched. -/
def stageAll (st : CatalogState) (stage_id source_id : String) (created_on : Nat)
    (listing : List (String × Fingerprint)) (prov : Nat → String) : CatalogState :=
  { st with stage := st.stage ++ stagedRows stage_id source_id created_on listing prov }

/-- Embedding of `Intake._create_new_generation`: promotes every staged batch in
order through `insert_artifact_generation_batch`. -/
def create_new_generation (st : CatalogState) (stage_id source_id : String)
    (num_batches : Nat) : CatalogState :=
  (List.range num_batches).foldl
    (fun acc b => insert_artifact_generation_batch acc stage_id source_id b) st

/-- Embedding of `Intake.intake`. Returns the final catalog state and the
generation_id of the newly created generation (the code returns the full
latest GenerationModel; only its generation_id is modelled), or `none` when no
generation was created: either nothing was staged, or a latest generation
exists and both change-detection counts are zero. -/
def Intake.intake (st : CatalogState) (source_id stage_id : String) (created_on : Nat)
    (listing : List (String × Fingerprint)) (prov : Nat → String) :
    CatalogState × Option Nat :=
  let st1 := stageAll st stage_id source_id created_on listing prov
  let num_batches := (batcher Intake.BATCH_SIZE listing).length
  if num_batches = 0 then (st1, none)
  else
    match latestGenerationId st1 source_id with
    | some latest =>
      if count_inserted_updated st1 stage_id source_id latest = 0 ∧
          count_deleted st1 stage_id source_id latest = 0 then
        (st1, none)
      else
        let st2 := create_new_generation st1 stage_id source_id num_batches
        (st2, latestGenerationId st2 source_id)
    | none =>
      let st2 := create_new_generation st1 stage_id source_id num_batches
      (st2, latestGenerationId st2 source_id)

/-- Change classification of `Catalog.diff_generations`. -/
inductive Change where
  | INSERTED
  | DELETED
  | UPDATED
  | NONE
deriving DecidableEq, Repr

/-- One result row of `Catalog.diff_generations` (ArtifactChangeModel). -/
structure ArtifactChangeRow where
  external_id : String
  artifact_id_a : Option String
  artifact_id_b : Option String
  change : Change
deriving DecidableEq, Repr

/-- One side of the diff query: generation rows of the given (source_id,
generation_id) inner-joined with `artifact` on artifact_id, projected to
(external_id, artifact_id). -/
def genSide (st : CatalogState) (source_id : String) (generation_id : Nat) :
    List (String × String) :=
  (st.generation.filter fun g =>
    g.source_id = source_id && g.generation_id = generation_id).flatMap fun g =>
      (st.artifact.filter fun a => a.artifact_id = g.artifact_id).map fun a =>
        (a.external_id, a.artifact_id)

/-- Full outer join of the two sides on external_id, as pairs of optional rows. -/
def fullOuterRows (A B : List (String × String)) :
    List (Option (String × String) × Option (String × String)) :=
  (A.flatMap fun a =>
    let ms := B.filter fun b => b.1 = a.1
    if ms.isEmpty then [(some a, none)] else ms.map fun b => (some a, some b)) ++
  ((B.filter fun b => !A.any fun a => a.1 = b.1).map fun b => (none, some b))

/-- The CASE expression of `Catalog.diff_generations`, applied to one joined
pair, together with the coalesce of the two external_ids. -/
def classifyPair (p : Option (String × String) × Option (String × String)) :
    ArtifactChangeRow :=
  match p with
  | (none, some b) => ⟨b.1, none, some b.2, Change.INSERTED⟩
  | (some a, none) => ⟨a.1, some a.2, none, Change.DELETED⟩
  | (some a, some b) =>
    ⟨a.1, some a.2, some b.2, if a.2 ≠ b.2 then Change.UPDATED else Change.NONE⟩
  | (none, none) => ⟨"", none, none, Change.NONE⟩

/-- Embedding of `Catalog.diff_generations` (pagination is not modelled: the
full result set is returned). -/
def diff_generations (st : CatalogState) (source_id : String)
    (generation_id_a generation_id_b : Nat) : List ArtifactChangeRow :=
  (fullOuterRows (genSide st source_id generation_id_a)
    (genSide st source_id generation_id_b)).map classifyPair

/-- Lifecycle status of a deferred disaggregation. -/
inductive DisaggregationStatus where
  | PENDING
  | DONE
  | FAILED
deriving DecidableEq, Repr

/-- The DeferredDisaggregationModel record (cif/persistence.py). -/
structure DeferredDisaggregationModel where
  source_id : String
  generation_id : Nat
  artifact_id : String
  extractor_type : String
  fragment_id : Option String := none
  start_byte : Option Nat := none
  end_byte : Option Nat := none
  created_on : Nat
  status : DisaggregationStatus := DisaggregationStatus.PENDING
  delivery_attempt : Nat := 0
deriving DecidableEq, Repr

/-- Observable side effects of one `Worker.__call__` invocation: message
acknowledgement, negative acknowledgement, an upsert into the
deferred_disaggregation table, or an invocation of `disaggregate_one` (which is
what writes fragment and fragment_key rows). -/
inductive WorkerEffect where
  | ack
  | nack
  | insertDD (row : DeferredDisaggregationModel)
  | extract
deriving DecidableEq, Repr

/-- Python `message.delivery_attempt or 1`: `None` and `0` are falsy. -/
def attemptOr1 (delivery_attempt : Option Nat) : Nat :=
  match delivery_attempt with
  | some n => if n = 0 then 1 else n
  | none => 1

/-- Embedding of `Worker.handle_disaggregation_failed_no_retry`: when a parsed
message is available its status is set to FAILED and it is upserted; the
message is acked either way. -/
def handle_disaggregation_failed_no_retry (parsed : Option DeferredDisaggregationModel)
    (delivery_attempt : Option Nat) : List WorkerEffect :=
  (match parsed with
   | some pm =>
     [WorkerEffect.insertDD
       { pm with delivery_attempt := attemptOr1 delivery_attempt
                 status := DisaggregationStatus.FAILED }]
   | none => []) ++ [WorkerEffect.ack]

/-- Embedding of `Worker.handle_disaggregation_failed_maybe_retry`: status
FAILED is upserted and the message is nacked for redelivery. -/
def handle_disaggregation_failed_maybe_retry (pm : DeferredDisaggregationModel)
    (delivery_attempt : Option Nat) : List WorkerEffect :=
  [WorkerEffect.insertDD
    { pm with delivery_attempt := attemptOr1 delivery_attempt
              status := DisaggregationStatus.FAILED },
   WorkerEffect.nack]

/-- Embedding of `Worker.handle_disaggregation_done`. -/
def handle_disaggregation_done (pm : DeferredDisaggregationModel)
    (delivery_attempt : Option Nat) : List WorkerEffect :=
  [WorkerEffect.insertDD
    { pm with delivery_attempt := attemptOr1 delivery_attempt
              status := DisaggregationStatus.DONE },
   WorkerEffect.ack]

/-- Environment of one worker callback: outcomes of the catalog reference
lookups, of the extractor lookup, the extraction outcome, and the delivery
attempt counter stamped on the message by the bus. -/
structure WorkerEnv where
  source_found : Bool
  generation_found : Bool
  artifact_found : Bool
  extractor_found : Bool
  extraction_ok : Bool
  delivery_attempt : Option Nat
deriving DecidableEq, Repr

/-- Embedding of `Worker.__call__` as the list of effects it performs. The
argument `parsed` is the result of `parse_message`: `none` when
`model_validate_json` raises ValidationError (as it does for the empty byte
string, which is not valid JSON), in which case control jumps to the
`except ValidationError` handler with `parsed_message = None`. A reference or
extractor lookup failure raises NotFoundError, handled by the no-retry path; an
extraction exception is handled by the maybe-retry path after the extraction
attempt. -/
def workerCall (parsed : Option DeferredDisaggregationModel) (env : WorkerEnv) :
    List WorkerEffect :=
  match parsed with
  | none => handle_disaggregation_failed_no_retry none env.delivery_attempt
  | some pm =>
    if env.source_found && env.generation_found && env.artifact_found then
      if env.extractor_found then
        if env.extraction_ok then
          WorkerEffect.extract :: handle_disaggregation_done pm env.delivery_attempt
        else
          WorkerEffect.extract ::
            handle_disaggregation_failed_maybe_retry pm env.delivery_attempt
      else handle_disaggregation_failed_no_retry (some pm) env.delivery_attempt
    else handle_disaggregation_failed_no_retry (some pm) env.delivery_attempt

/-- Aggregation level of a fragment. -/
inductive AggregationLevel where
  | DOCUMENT
  | LINK
  | TITLE
  | ROW
deriving DecidableEq, Repr

/-- The FragmentModel record (cif/persistence.py); `json_content` is modelled
as an association list of column name to value. -/
structure FragmentModel where
  source_id : String
  artifact_id : String
  fragment_id : String
  aggregation_level : AggregationLevel
  seq_no : Nat
  text_content : String
  json_content : Option (List (String × String)) := none
deriving DecidableEq, Repr

/-- Embedding of `Extractor.new_fragment`: the optional text-content filter
(`filter_text_content`, whose stop-word machinery is irrelevant here) is
modelled as an abstract `String → String` applied when configured. -/
def new_fragment (text_content_filter : Option (String → String)) (artifact : ArtifactRow)
    (fragment_id : String) (seq_no : Nat) (aggregation_level : AggregationLevel)
    (raw_text_content : String) (json_content : Option (List (String × String))) :
    FragmentModel :=
  { source_id := artifact.source_id
    artifact_id := artifact.artifact_id
    fragment_id := fragment_id
    aggregation_level := aggregation_level
    seq_no := seq_no
    text_content :=
      match text_content_filter with
      | some f => f raw_text_content
      | none => raw_text_content
    json_content := json_content }

/-- Readable content of one CSV artifact, at record granularity: `records` is
the whole file parsed as CSV records (`parse_content` with no byte range), and
`chunkRecords start end` the records parsed from the byte range read through
`get_artifact_chunk` (`parse_content` with a byte range). Byte-level CSV
parsing is abstracted: the first record stands for the header read from the
first 4 KiB by `calc_fieldnames`. -/
structure CSVSource where
  records : List (List String)
  chunkRecords : Nat → Nat → List (List String)

/-- Embedding of `CSVRowExtractor.calc_fieldnames`: the first record of the
file, parsed as the CSV header. -/
def calc_fieldnames (src : CSVSource) : List String :=
  src.records.headD []

/-- Python DictReader row for given field names, as an association list
(faithful when the field names are distinct and the row has the same length;
restkey/restval padding is not needed by the claims). -/
def dictRow (fieldnames row : List String) : List (String × String) :=
  fieldnames.zip row

/-- Embedding of `CSVRowExtractor.calc_fragments`. Note two facts read straight
from the source: the `fragment_id` parameter is accepted but never used (each
row fragment gets a fresh `uuid4().hex`, drawn here from the supply `uuids`),
and the local `seq_no` counter is incremented but the literal `0` is passed to
`new_fragment` as every fragment seq_no. When both byte bounds are given the
body comes from the ranged read, otherwise from the whole file. -/
def CSVRowExtractor.calc_fragments (text_content_filter : Option (String → String))
    (src : CSVSource) (artifact : ArtifactRow) (uuids : Nat → String)
    (_fragment_id : Option String) (start_byte end_byte : Option Nat) :
    List FragmentModel :=
  let fieldnames := calc_fieldnames src
  let rows :=
    match start_byte, end_byte with
    | some s, some e => src.chunkRecords s e
    | _, _ => src.records
  rows.enum.map fun ir =>
    new_fragment text_content_filter artifact (uuids ir.1) 0 AggregationLevel.ROW
      (String.intercalate " " ((dictRow fieldnames ir.2).map Prod.snd))
      (some (dictRow fieldnames ir.2))

/-- One submitted task of `Disaggregation.disaggregate_and_chunk_all` in
IMMEDIATE_CHUNKED mode, for one artifact of the page: the byte range of the
chunk, the extractor index, and the `fragment_id` generated for the task. -/
structure ChunkTask where
  start_byte : Nat
  end_byte : Nat
  extractor_ix : Nat
  fragment_id : String
deriving DecidableEq, Repr

/-- Tasks submitted by `Disaggregation.disaggregate_and_chunk_all` for one
artifact: for every line chunk and every extractor, a fresh `fragment_id` is
drawn (`uuid4().hex`, modelled by the supply `uuids`) and
`disaggregate_one(generation, artifact, extractor, fragment_id, start, end)` is
submitted to the pool. -/
def disaggregate_and_chunk_tasks (chunks : List (Nat × Nat)) (num_extractors : Nat)
    (uuids : Nat → String) : List ChunkTask :=
  chunks.enum.flatMap fun ci =>
    (List.range num_extractors).map fun xi =>
      { start_byte := ci.2.1
        end_byte := ci.2.2
        extractor_ix := xi
        fragment_id := uuids (ci.1 * num_extractors + xi) }

/-- Python `str.replace` on character lists, fuelled so that the recursion is
structural (the fuel is a bound on the number of characters still to scan):
scans left to right, replacing non-overlapping occurrences of `pat` (assumed
non-empty, as in the one use in the source) by `rep`. -/
def replaceListFuel (pat rep : List Char) : Nat → List Char → List Char
  | 0, s => s
  | _ + 1, [] => []
  | fuel + 1, c :: s =>
    if pat ≠ [] ∧ pat.isPrefixOf (c :: s) then
      rep ++ replaceListFuel pat rep fuel ((c :: s).drop pat.length)
    else
      c :: replaceListFuel pat rep fuel s

/-- Python `str.replace` on character lists. -/
def replaceList (pat rep s : List Char) : List Char :=
  replaceListFuel pat rep s.length s

/-- Python `str.replace` on strings. -/
def pyReplace (s pat rep : String) : String :=
  String.mk (replaceList pat.toList rep.toList s.toList)

/-- Hexadecimal character class `[0-9a-fA-F]`. -/
def isHexChar (c : Char) : Bool :=
  (Char.ofNat 48 ≤ c && c ≤ Char.ofNat 57) ||
    (Char.ofNat 97 ≤ c && c ≤ Char.ofNat 102) ||
    (Char.ofNat 65 ≤ c && c ≤ Char.ofNat 70)

/-- Python `re.match(r"[0-9a-fA-F]{32}", s)` truthiness: `re.match` anchors the
pattern only at the start of the string, so it succeeds whenever the first 32
characters exist and are hexadecimal, regardless of what follows. -/
def re_match_hex32 (s : String) : Bool :=
  s.toList.length ≥ 32 && (s.toList.take 32).all isHexChar

/-- Membership in the strict format the specification describes: exactly 32
hexadecimal characters and nothing else. -/
def isExactly32Hex (s : String) : Bool :=
  s.toList.length = 32 && s.toList.all isHexChar

/-- Optional filters accepted by `Catalog.calc_search_fragments_where_clause`
(the enumerated kwargs: aggregation_level, generation_id, external_id, query). -/
structure SearchOptions where
  aggregation_level : Option AggregationLevel := none
  generation_id : Option Nat := none
  external_id : Option String := none
  query : Option String := none

/-- Embedding of `Catalog.calc_search_fragments_where_clause`, restricted to
the SQL text it builds (the parameter dictionary holds only the bound values
and does not influence the text). -/
def calc_search_fragments_where_clause (w : String) (ngram : Bool)
    (opts : SearchOptions) : String :=
  let w := match opts.aggregation_level with
    | some _ => w ++ " AND aggregation_level = @aggregation_level"
    | none => w
  let w := match opts.generation_id with
    | some _ => w ++ " AND g.generation_id = @generation_id"
    | none =>
      w ++ " AND g.generation_id = (select max(generation_id) from generation where source_id = @source_id)"
  let w := match opts.external_id with
    | some _ => w ++ " AND a.external_id = @external_id"
    | none => w
  match opts.query with
  | some _ =>
    if ngram then w ++ " AND search_ngrams(f.ngram_tokens, @query)"
    else w ++ " AND search(f.text_tokens, @query)"
  | none => w

/-- One search term of the keyed fragment search. -/
structure KeySearchTerm where
  key : String
  values : List String
deriving DecidableEq, Repr

/-- Embedding of `Catalog.calc_search_fragments_key_where_clause`, restricted
to the SQL text: one parenthesised `(key = @keyI and value in (@valueI_0, ...))`
term per KeySearchTerm, joined with " or " behind "where ". -/
def calc_search_fragments_key_where_clause (query : List KeySearchTerm) : String :=
  "where " ++ String.intercalate " or "
    (query.enum.map fun it =>
      "(key = @key" ++ toString it.1 ++ " and value in (" ++
        String.intercalate ", "
          (it.2.values.enum.map fun iv => "@value" ++ toString it.1 ++ "_" ++ toString iv.1) ++
        "))")

/-- The SQL text assembled by `Catalog.search_fragments_key` after validation:
the f-string combining both where clauses and the group-by/having subquery,
followed by the literal substitution of the validated source_id for every
occurrence of `@source_id`. -/
def search_fragments_key_sql (source_id : String) (query : List KeySearchTerm)
    (opts : SearchOptions) : String :=
  let where0 := calc_search_fragments_key_where_clause query
  let where1 := calc_search_fragments_where_clause "where f.source_id = @source_id" false opts
  let sql :=
    "\n        SELECT f.*, a.external_id, g.generation_id from fragment f\n        JOIN (\n        SELECT source_id, artifact_id, fragment_id, seq_no\n        FROM fragment_key\n        " ++
    where0 ++
    "\n        and source_id = @source_id\n        group by source_id, artifact_id, fragment_id, seq_no having count(distinct key) = " ++
    toString query.length ++
    ") matches\n        ON f.source_id = matches.source_id and f.artifact_id = matches.artifact_id and\n        f.fragment_id = matches.fragment_id AND f.seq_no = matches.seq_no\n        inner join artifact a on f.artifact_id = a.artifact_id and f.source_id = a.source_id\n        inner join generation g on f.artifact_id = g.artifact_id and f.source_id = g.source_id\n        " ++
    where1 ++ "\n        "
  pyReplace sql "@source_id" ("\x27" ++ source_id ++ "\x27")

/-- Embedding of `Catalog.search_fragments_key` up to the point the SQL text is
handed to the database client: a ValueError (`.error`) when the
`re.match(r"[0-9a-fA-F]{32}", source_id)` guard fails, the assembled SQL
otherwise. -/
def search_fragments_key (source_id : String) (query : List KeySearchTerm)
    (opts : SearchOptions) : Except String String :=
  if !re_match_hex32 source_id then
    Except.error ("Invalid source_id \x27" ++ source_id ++ "\x27")
  else
    Except.ok (search_fragments_key_sql source_id query opts)

/-- Group-by/having clause the keyed search emits for a given count. -/
def groupByHavingClause (n : Nat) : String :=
  "group by source_id, artifact_id, fragment_id, seq_no having count(distinct key) = " ++
    toString n

/-- Number of distinct keys among the terms of a keyed search query. -/
def distinctKeyCount (query : List KeySearchTerm) : Nat :=
  (query.map KeySearchTerm.key).dedup.length

/-- Partial byte sum of the first `n` lines of a blob, marking the line
boundaries the chunker may cut at. -/
def takeSum (lineLens : List Nat) (n : Nat) : Nat :=
  (lineLens.take n).sum

/-- Source id made of 32 hexadecimal characters followed by an SQL injection
payload; `re.match` accepts it because it only anchors at the start. -/
def injectionSourceId : String :=
  "0123456789abcdef0123456789abcdef\x27 or 1=1 --"

/-- Concrete artifact used to evaluate the extractor embedding. -/
def c3Artifact : ArtifactRow :=
  { artifact_id := "artifact1"
    source_id := "source1"
    external_id := "file.csv"
    version := "v1"
    content_type := "text/csv"
    content_length := 100
    created_on := 0 }

/-- Concrete one-column CSV artifact content: header record then one data
record; its ranged read returns the single data record. -/
def c3Src : CSVSource :=
  { records := [["col"], ["val"]]
    chunkRecords := fun _ _ => [["val"]] }

/-- Concrete uuid4 supply used inside the extractor. -/
def c3Uuids : Nat → String := fun i => "uuid" ++ toString i

/-- Concrete uuid4 supply used by disaggregate_and_chunk_all for task ids. -/
def c3TaskUuids : Nat → String := fun i => "task" ++ toString i

/-- Executable substring test on character lists: some suffix of `s` starts
with `pat`. -/
def containsSub (pat : List Char) : List Char → Bool
  | [] => pat.isEmpty
  | c :: s => pat.isPrefixOf (c :: s) || containsSub pat s

/-- Key invariant of the `artifact` table stated in the data model: for a
given (source_id, external_id, version) there exists exactly one
artifact_id. -/
def ArtifactKeyFun (A : List ArtifactRow) : Prop :=
  ∀ a ∈ A, ∀ b ∈ A,
    a.source_id = b.source_id → a.external_id = b.external_id →
      a.version = b.version → a.artifact_id = b.artifact_id

/-! ## Theorems -/

set_option maxRecDepth 4096

/-- C5, counterexample. The staging batch size is the compile-time constant
6,153, but the mutation-cap inequality claimed with 14 mutations per promoted
row fails: 14 x 6,153 = 86,142 > 80,000. -/
theorem c5_counterexample :
    Intake.BATCH_SIZE = 6153 ∧ ¬(14 * Intake.BATCH_SIZE ≤ 80000) := by
  decide

/-- C5, amended. The staging batch size is the compile-time constant 6,153,
and it is the largest batch size satisfying the mutation-cap inequality with
13 mutations per promoted row: 13 x 6,153 = 79,989 <= 80,000 while
13 x 6,154 exceeds 80,000. -/
theorem c5_amended_batch_size_cap :
    Intake.BATCH_SIZE = 6153 ∧ 13 * Intake.BATCH_SIZE ≤ 80000 ∧
      80000 < 13 * (Intake.BATCH_SIZE + 1) := by
  decide

/-- C6, evaluation at the failing input. A source_id consisting of 32
hexadecimal characters followed by an injection payload passes the
`re.match(r"[0-9a-fA-F]{32}", source_id)` guard (re.match anchors only at the
start), is not an exactly-32-hex string, and `search_fragments_key` therefore
raises no ValueError and interpolates the whole string, payload included,
into the SQL text. -/
theorem c6_prefix_only_validation_admits_injection :
    re_match_hex32 injectionSourceId = true ∧
    isExactly32Hex injectionSourceId = false ∧
    (search_fragments_key injectionSourceId [⟨"k", ["v"]⟩] {}).isOk = true ∧
    containsSub "\x27 or 1=1 --".toList
      (search_fragments_key_sql injectionSourceId [⟨"k", ["v"]⟩] {}).toList = true := by
  decide

/-- C9. When the payload fails to parse (as the empty byte string does), the
worker callback acks the message exactly once, never nacks it, writes no row
to the catalog and invokes no extraction, whatever the rest of the
environment holds: the callback effect list is exactly a single ack. -/
theorem c9_worker_discards_unparseable (env : WorkerEnv) :
    workerCall none env = [WorkerEffect.ack] ∧
    (workerCall none env).count WorkerEffect.ack = 1 ∧
    WorkerEffect.nack ∉ workerCall none env ∧
    (∀ row, WorkerEffect.insertDD row ∉ workerCall none env) ∧
    WorkerEffect.extract ∉ workerCall none env := by
  refine ⟨rfl, rfl, ?_, ?_, ?_⟩ <;> simp [workerCall, handle_disaggregation_failed_no_retry]

/-- C3, evaluation at the failing input. In IMMEDIATE_CHUNKED mode
`disaggregate_and_chunk_all` draws one fresh fragment_id per (chunk, extractor)
task ("task0", "task1" for two chunks of one extractor) and hands it to
`disaggregate_one`, but `CSVRowExtractor.calc_fragments` ignores the received
fragment_id parameter: the fragment written for the single data row of the
first chunk carries the row-level fresh id "uuid0", and no fragment of that
task carries the task id "task0". -/
theorem c3_task_fragment_id_not_used :
    disaggregate_and_chunk_tasks [(0, 99), (100, 199)] 1 c3TaskUuids =
      [⟨0, 99, 0, "task0"⟩, ⟨100, 199, 0, "task1"⟩] ∧
    (CSVRowExtractor.calc_fragments none c3Src c3Artifact c3Uuids (some "task0")
        (some 0) (some 99)).map FragmentModel.fragment_id = ["uuid0"] ∧
    (∀ fr ∈ CSVRowExtractor.calc_fragments none c3Src c3Artifact c3Uuids (some "task0")
        (some 0) (some 99), fr.fragment_id ≠ "task0") := by
  decide

/-- Helper: zipping a list with itself pairs every element with itself. -/
theorem zip_self {α : Type} (l : List α) : l.zip l = l.map fun a => (a, a) := by
  induction l with
  | nil => rfl
  | cons a t ih => simp [ih]

/-- C10. When `CSVRowExtractor.calc_fragments` is called without a byte range,
the whole file (header record included) is parsed as data rows against the
separately read field names, which equal the header itself: a file of one
header record and n data records yields n + 1 ROW fragments, the first of
which maps every column name to itself. The `header.Nodup` hypothesis marks
the regime in which the association-list model of the Python dict is exact. -/
theorem c10_csv_whole_file_includes_header
    (header : List String) (rows : List (List String))
    (chunk : Nat → Nat → List (List String)) (artifact : ArtifactRow)
    (uuids : Nat → String) (fid : Option String) (hnd : header.Nodup) :
    (CSVRowExtractor.calc_fragments none ⟨header :: rows, chunk⟩ artifact uuids fid
        none none).length = rows.length + 1 ∧
    (CSVRowExtractor.calc_fragments none ⟨header :: rows, chunk⟩ artifact uuids fid
        none none).head? =
      some (new_fragment none artifact (uuids 0) 0 AggregationLevel.ROW
        (String.intercalate " " header) (some (header.map fun h => (h, h)))) ∧
    ∀ fr ∈ CSVRowExtractor.calc_fragments none ⟨header :: rows, chunk⟩ artifact uuids fid
        none none, fr.aggregation_level = AggregationLevel.ROW ∧ fr.seq_no = 0 := by
  refine ⟨?_, ?_, ?_⟩
  · simp [CSVRowExtractor.calc_fragments]
  · simp only [CSVRowExtractor.calc_fragments, calc_fieldnames, List.headD_cons,
      List.enum_cons, List.map_cons, List.head?_cons, Option.some.injEq]
    simp [dictRow, zip_self, List.map_map, Function.comp_def]
  · intro fr hfr
    simp only [CSVRowExtractor.calc_fragments, List.mem_map] at hfr
    obtain ⟨ir, _, rfl⟩ := hfr
    exact ⟨rfl, rfl⟩

/-- C10, witness: the theorem applied to the two-column file with header
(a, b) and one data record (1, 2). -/
theorem c10_witness :
    (["a", "b"] : List String).Nodup ∧
    ((CSVRowExtractor.calc_fragments none ⟨[["a", "b"], ["1", "2"]], fun _ _ => []⟩
        c3Artifact c3Uuids none none none).length = [["1", "2"]].length + 1 ∧
    (CSVRowExtractor.calc_fragments none ⟨[["a", "b"], ["1", "2"]], fun _ _ => []⟩
        c3Artifact c3Uuids none none none).head? =
      some (new_fragment none c3Artifact (c3Uuids 0) 0 AggregationLevel.ROW
        (String.intercalate " " ["a", "b"])
        (some ((["a", "b"] : List String).map fun h => (h, h)))) ∧
    ∀ fr ∈ CSVRowExtractor.calc_fragments none ⟨[["a", "b"], ["1", "2"]], fun _ _ => []⟩
        c3Artifact c3Uuids none none none,
      fr.aggregation_level = AggregationLevel.ROW ∧ fr.seq_no = 0) :=
  ⟨by decide,
   c10_csv_whole_file_includes_header ["a", "b"] [["1", "2"]] (fun _ _ => [])
     c3Artifact c3Uuids none (by decide)⟩

/-- Helper: the fuel argument of `replaceListFuel` is irrelevant once it covers
the length of the scanned list. -/
theorem replaceListFuel_fuel_irrel (pat rep : List Char) :
    ∀ f1 f2 s, s.length ≤ f1 → s.length ≤ f2 →
      replaceListFuel pat rep f1 s = replaceListFuel pat rep f2 s := by
  intro f1
  induction f1 with
  | zero =>
    intro f2 s h1 _
    have hs : s = [] := List.eq_nil_of_length_eq_zero (Nat.le_zero.mp h1)
    subst hs
    cases f2 <;> rfl
  | succ f ih =>
    intro f2 s h1 h2
    cases s with
    | nil => cases f2 <;> rfl
    | cons c s' =>
      cases f2 with
      | zero => exact absurd h2 (by simp)
      | succ f2' =>
        simp only [replaceListFuel]
        by_cases hp : pat ≠ [] ∧ pat.isPrefixOf (c :: s')
        · rw [if_pos hp, if_pos hp]
          have hlen : ((c :: s').drop pat.length).length ≤ f := by
            have : 1 ≤ pat.length := by
              cases hpat : pat with
              | nil => exact absurd hpat hp.1
              | cons _ _ => simp
            simp only [List.length_drop, List.length_cons]
            simp only [List.length_cons] at h1
            omega
          have hlen2 : ((c :: s').drop pat.length).length ≤ f2' := by
            have : 1 ≤ pat.length := by
              cases hpat : pat with
              | nil => exact absurd hpat hp.1
              | cons _ _ => simp
            simp only [List.length_drop, List.length_cons]
            simp only [List.length_cons] at h2
            omega
          rw [ih f2' _ hlen hlen2]
        · rw [if_neg hp, if_neg hp]
          simp only [List.length_cons] at h1 h2
          rw [ih f2' s' (by omega) (by omega)]

/-- Helper: one-step unfolding of `replaceList` on a nonempty list. -/
theorem replaceList_cons (pat rep : List Char) (c : Char) (s : List Char) :
    replaceList pat rep (c :: s) =
      if pat ≠ [] ∧ pat.isPrefixOf (c :: s) then
        rep ++ replaceList pat rep ((c :: s).drop pat.length)
      else
        c :: replaceList pat rep s := by
  show replaceListFuel pat rep (c :: s).length (c :: s) = _
  simp only [List.length_cons, replaceListFuel]
  by_cases hp : pat ≠ [] ∧ pat.isPrefixOf (c :: s)
  · rw [if_pos hp, if_pos hp]
    have h1 : 1 ≤ pat.length := by
      cases hpat : pat with
      | nil => exact absurd hpat hp.1
      | cons _ _ => simp
    exact congrArg (rep ++ ·)
      (replaceListFuel_fuel_irrel pat rep s.length ((c :: s).drop pat.length).length _
        (by simp only [List.length_drop, List.length_cons]; omega) le_rfl)
  · rw [if_neg hp, if_neg hp]
    rfl

/-- Helper: `replaceList` leaves a list unchanged when the pattern matches at
none of its positions (no nonempty suffix starts with the pattern). -/
theorem replaceList_eq_self (pat rep : List Char)
    (s : List Char) (h : ∀ y, y ≠ [] → y <:+ s → ¬(pat.isPrefixOf y = true)) :
    replaceList pat rep s = s := by
  induction s with
  | nil => rfl
  | cons c s' ih =>
    rw [replaceList_cons]
    rw [if_neg fun hand => h (c :: s') (by simp) List.suffix_rfl hand.2]
    exact congrArg (c :: ·) (ih fun y hy hs hp => h y hy (hs.trans (List.suffix_cons c s')) hp)

/-- Helper: a prefix of a concatenation either is a prefix of the left part or
extends it by a nonempty prefix of the right part. -/
theorem prefix_split (pat y r : List Char) (h : pat <+: y ++ r) :
    pat <+: y ∨ ∃ p, p ≠ [] ∧ pat = y ++ p ∧ p <+: r := by
  by_cases hl : pat.length ≤ y.length
  · exact Or.inl (List.prefix_of_prefix_length_le h (List.prefix_append y r) hl)
  · right
    have hy : y <+: pat :=
      List.prefix_of_prefix_length_le (List.prefix_append y r) h (by omega)
    obtain ⟨p, rfl⟩ := hy
    refine ⟨p, ?_, rfl, (List.prefix_append_right_inj y).mp h⟩
    intro hnil
    subst hnil
    simp at hl

/-- Helper: `replaceList` distributes over an append when every match starting
inside the left part stays inside the left part. -/
theorem replaceList_append (pat rep : List Char) (hpat : pat ≠ []) :
    ∀ (n : Nat) (u w : List Char), u.length ≤ n →
      (∀ y, y ≠ [] → y <:+ u → pat.isPrefixOf (y ++ w) → pat <+: y) →
      replaceList pat rep (u ++ w) = replaceList pat rep u ++ replaceList pat rep w := by
  intro n
  induction n with
  | zero =>
    intro u w hlen _
    have hu : u = [] := List.eq_nil_of_length_eq_zero (Nat.le_zero.mp hlen)
    subst hu
    rfl
  | succ n ih =>
    intro u w hlen hcond
    cases u with
    | nil => rfl
    | cons c u' =>
      rw [List.cons_append, replaceList_cons, replaceList_cons]
      by_cases hp : pat.isPrefixOf (c :: u' ++ w)
      · have hyp : pat <+: (c :: u') := hcond (c :: u') (by simp) List.suffix_rfl hp
        have hplen : pat.length ≤ u'.length + 1 := by
          have := hyp.length_le
          simpa using this
        rw [if_pos ⟨hpat, hp⟩, if_pos ⟨hpat, List.isPrefixOf_iff_prefix.mpr hyp⟩]
        have h1 : 1 ≤ pat.length := by
          cases hpx : pat with
          | nil => exact absurd hpx hpat
          | cons _ _ => simp
        have hdrop : List.drop pat.length (c :: (u' ++ w)) =
            List.drop pat.length (c :: u') ++ w := by
          rw [← List.cons_append]
          exact List.drop_append_of_le_length (by simpa using hplen)
        rw [hdrop]
        rw [ih ((c :: u').drop pat.length) w
          (by simp only [List.length_drop, List.length_cons]
              simp only [List.length_cons] at hlen
              omega)
          (fun y hy hs hpre => hcond y hy (hs.trans (List.drop_suffix _ _)) hpre)]
        rw [List.append_assoc]
      · have hpb : ¬ pat.isPrefixOf (c :: u') := by
          intro hx
          exact hp (List.isPrefixOf_iff_prefix.mpr
            ((List.isPrefixOf_iff_prefix.mp hx).trans (List.prefix_append (c :: u') w)))
        rw [if_neg fun hand => hp hand.2, if_neg fun hand => hpb hand.2]
        rw [ih u' w (by simp only [List.length_cons] at hlen; omega)
          (fun y hy hs hpre => hcond y hy (hs.trans (List.suffix_cons c u')) hpre)]
        rfl

/-- Helper: every character emitted by the decimal digit printer is a digit. -/
theorem toDigitsCore_ten_mem (fuel : Nat) :
    ∀ (n : Nat) (acc : List Char) (c : Char),
      c ∈ Nat.toDigitsCore 10 fuel n acc → c ∈ acc ∨ c.isDigit = true := by
  induction fuel with
  | zero =>
    intro n acc c hc
    exact Or.inl (by simpa [Nat.toDigitsCore] using hc)
  | succ f ih =>
    intro n acc c hc
    have hd : (Nat.digitChar (n % 10)).isDigit = true := by
      have h10 : n % 10 < 10 := Nat.mod_lt _ (by norm_num)
      revert h10
      generalize n % 10 = m
      intro h10
      interval_cases m <;> decide
    simp only [Nat.toDigitsCore] at hc
    by_cases hz : n / 10 = 0
    · rw [if_pos hz] at hc
      rcases List.mem_cons.mp hc with h | h
      · exact Or.inr (h ▸ hd)
      · exact Or.inl h
    · rw [if_neg hz] at hc
      rcases ih _ _ _ hc with h | h
      · rcases List.mem_cons.mp h with h2 | h2
        · exact Or.inr (h2 ▸ hd)
        · exact Or.inl h2
      · exact Or.inr h

/-- Helper: every character of the decimal representation of a natural number
is a digit. -/
theorem toString_nat_chars_digits (n : Nat) (c : Char)
    (hc : c ∈ (toString n : String).toList) : c.isDigit = true := by
  have hc2 : c ∈ Nat.toDigitsCore 10 (n + 1) n [] := hc
  rcases toDigitsCore_ten_mem (n + 1) n [] c hc2 with h | h
  · simp at h
  · exact h

/-- Helper: a left-to-right replacement of a pattern starting with a character
absent from the middle segment `T` (whose first character in turn is absent
from the pattern) never touches `T`: the replacement distributes around it. -/
theorem replaceList_pres_mid (pat rep U T V : List Char)
    (hpat_at : ∃ pt, pat = '@' :: pt)
    (hT : ∀ c ∈ T, c ≠ '@')
    (hThead : ∃ t0 tr, T = t0 :: tr ∧ t0 ∉ pat) :
    replaceList pat rep (U ++ (T ++ V)) =
      replaceList pat rep U ++ (T ++ replaceList pat rep V) := by
  obtain ⟨pt, hpt⟩ := hpat_at
  obtain ⟨t0, tr, hT0, ht0⟩ := hThead
  have hpat : pat ≠ [] := by rw [hpt]; simp
  have hcondU : ∀ y, y ≠ [] → y <:+ U → pat.isPrefixOf (y ++ (T ++ V)) → pat <+: y := by
    intro y hy _ hp
    rcases prefix_split pat y (T ++ V) (List.isPrefixOf_iff_prefix.mp hp) with h | ⟨p, hpn, hpe, hpr⟩
    · exact h
    · exfalso
      obtain ⟨a, p', rfl⟩ := List.exists_cons_of_ne_nil hpn
      obtain ⟨z, hz⟩ := hpr
      rw [hT0] at hz
      simp only [List.cons_append] at hz
      have ha : a = t0 := by injection hz
      subst ha
      exact ht0 (hpe ▸ List.mem_append_right y (List.mem_cons_self a p'))
  have hheadAt : ∀ (b : Char) (y' z : List Char),
      pat.isPrefixOf (b :: y' ++ z) → b = '@' := by
    intro b y' z hp
    rcases List.isPrefixOf_iff_prefix.mp hp with ⟨w, hw⟩
    rw [hpt] at hw
    simp only [List.cons_append] at hw
    injection hw with h1 _
    exact h1.symm
  have hcondT : ∀ y, y ≠ [] → y <:+ T → pat.isPrefixOf (y ++ V) → pat <+: y := by
    intro y hy hs hp
    exfalso
    obtain ⟨b, y', rfl⟩ := List.exists_cons_of_ne_nil hy
    exact hT b (hs.subset (List.mem_cons_self b y')) (hheadAt b y' V hp)
  have hTid : replaceList pat rep T = T := by
    apply replaceList_eq_self
    intro y hy hs hp
    obtain ⟨b, y', rfl⟩ := List.exists_cons_of_ne_nil hy
    have hb : b = '@' := by
      rcases List.isPrefixOf_iff_prefix.mp hp with ⟨w, hw⟩
      rw [hpt] at hw
      simp only [List.cons_append] at hw
      injection hw with h1 _
      exact h1.symm
    exact hT b (hs.subset (List.mem_cons_self b y')) hb
  rw [replaceList_append pat rep hpat U.length U (T ++ V) le_rfl hcondU]
  rw [replaceList_append pat rep hpat T.length T V le_rfl hcondT, hTid]

/-- Helper: the literal substitution of the source id for `@source_id` leaves
the group-by/having clause intact, because the clause contains no `@` and
starts with a character the pattern does not contain. -/
theorem pyReplace_around_having (src P Q : String) (n : Nat) :
    pyReplace (P ++ (groupByHavingClause n ++ Q)) "@source_id" ("\x27" ++ src ++ "\x27") =
      pyReplace P "@source_id" ("\x27" ++ src ++ "\x27") ++
        (groupByHavingClause n ++ pyReplace Q "@source_id" ("\x27" ++ src ++ "\x27")) := by
  apply String.ext
  show replaceList "@source_id".toList ("\x27" ++ src ++ "\x27").toList
      (P ++ (groupByHavingClause n ++ Q)).toList = _
  have hsplit : (P ++ (groupByHavingClause n ++ Q)).toList =
      P.toList ++ ((groupByHavingClause n).toList ++ Q.toList) := by
    simp
  rw [hsplit]
  have hTdata : (groupByHavingClause n).toList =
      ("group by source_id, artifact_id, fragment_id, seq_no having count(distinct key) = " : String).toList ++
        (toString n).toList := by
    simp [groupByHavingClause]
  have hT : ∀ c ∈ (groupByHavingClause n).toList, c ≠ '@' := by
    intro c hc
    rw [hTdata] at hc
    rcases List.mem_append.mp hc with h | h
    · exact (show ∀ x ∈ ("group by source_id, artifact_id, fragment_id, seq_no having count(distinct key) = " : String).toList, x ≠ '@' from by decide) c h
    · intro heq
      have := toString_nat_chars_digits n c h
      rw [heq] at this
      exact absurd this (by decide)
  have hThead : ∃ t0 tr, (groupByHavingClause n).toList = t0 :: tr ∧
      t0 ∉ "@source_id".toList := by
    refine ⟨'g', ("roup by source_id, artifact_id, fragment_id, seq_no having count(distinct key) = " : String).toList ++ (toString n).toList, ?_, by decide⟩
    rw [hTdata]
    rw [show ("group by source_id, artifact_id, fragment_id, seq_no having count(distinct key) = " : String).toList =
      'g' :: ("roup by source_id, artifact_id, fragment_id, seq_no having count(distinct key) = " : String).toList from by decide]
    rfl
  have := replaceList_pres_mid "@source_id".toList ("\x27" ++ src ++ "\x27").toList
    P.toList (groupByHavingClause n).toList Q.toList
    ⟨"source_id".toList, by decide⟩ hT hThead
  rw [this]
  rfl

/-- C4, amended. For every keyed fragment search, the SQL text assembled by
`search_fragments_key` decomposes around the clause
`group by source_id, artifact_id, fragment_id, seq_no having count(distinct key) = n`
where n is the NUMBER OF TERMS `len(query)` of the query (which equals the
distinct-key count only when the term keys are pairwise distinct). -/
theorem c4_amended_having_counts_query_terms (source_id : String)
    (query : List KeySearchTerm) (opts : SearchOptions) (hq : query ≠ []) :
    ∃ u v : String,
      search_fragments_key_sql source_id query opts =
        u ++ groupByHavingClause query.length ++ v := by
  refine ⟨pyReplace ("\n        SELECT f.*, a.external_id, g.generation_id from fragment f\n        JOIN (\n        SELECT source_id, artifact_id, fragment_id, seq_no\n        FROM fragment_key\n        " ++ calc_search_fragments_key_where_clause query ++ "\n        and source_id = @source_id\n        ") "@source_id" ("\x27" ++ source_id ++ "\x27"),
    pyReplace (") matches\n        ON f.source_id = matches.source_id and f.artifact_id = matches.artifact_id and\n        f.fragment_id = matches.fragment_id AND f.seq_no = matches.seq_no\n        inner join artifact a on f.artifact_id = a.artifact_id and f.source_id = a.source_id\n        inner join generation g on f.artifact_id = g.artifact_id and f.source_id = g.source_id\n        " ++ calc_search_fragments_where_clause "where f.source_id = @source_id" false opts ++ "\n        ") "@source_id" ("\x27" ++ source_id ++ "\x27"), ?_⟩
  have hform : search_fragments_key_sql source_id query opts =
      pyReplace (("\n        SELECT f.*, a.external_id, g.generation_id from fragment f\n        JOIN (\n        SELECT source_id, artifact_id, fragment_id, seq_no\n        FROM fragment_key\n        " ++ calc_search_fragments_key_where_clause query ++ "\n        and source_id = @source_id\n        ") ++
        (groupByHavingClause query.length ++
          (") matches\n        ON f.source_id = matches.source_id and f.artifact_id = matches.artifact_id and\n        f.fragment_id = matches.fragment_id AND f.seq_no = matches.seq_no\n        inner join artifact a on f.artifact_id = a.artifact_id and f.source_id = a.source_id\n        inner join generation g on f.artifact_id = g.artifact_id and f.source_id = g.source_id\n        " ++ calc_search_fragments_where_clause "where f.source_id = @source_id" false opts ++ "\n        ")))
      "@source_id" ("\x27" ++ source_id ++ "\x27") := by
    show pyReplace _ "@source_id" ("\x27" ++ source_id ++ "\x27") = _
    congr 1
    apply String.ext
    simp only [groupByHavingClause, String.data_append, List.append_assoc]
    rfl
  rw [hform, pyReplace_around_having, ← String.append_assoc]

/-- C4, counterexample. For the two-term query [(k, v1), (k, v2)] the number
of distinct keys is 1, but the SQL emitted by the keyed search carries
`having count(distinct key) = 2` (the number of terms) and nowhere
`having count(distinct key) = 1`: the HAVING count is len(query), not the
distinct-key count the claim states. -/
theorem c4_counterexample :
    distinctKeyCount [⟨"k", ["v1"]⟩, ⟨"k", ["v2"]⟩] = 1 ∧
    ([⟨"k", ["v1"]⟩, ⟨"k", ["v2"]⟩] : List KeySearchTerm).length = 2 ∧
    containsSub (groupByHavingClause
        (distinctKeyCount [⟨"k", ["v1"]⟩, ⟨"k", ["v2"]⟩])).toList
      (search_fragments_key_sql "0123456789abcdef0123456789abcdef"
        [⟨"k", ["v1"]⟩, ⟨"k", ["v2"]⟩] {}).toList = false ∧
    containsSub (groupByHavingClause 2).toList
      (search_fragments_key_sql "0123456789abcdef0123456789abcdef"
        [⟨"k", ["v1"]⟩, ⟨"k", ["v2"]⟩] {}).toList = true := by
  decide

/-- C4, witness: the amended theorem applied to a concrete two-term query with
distinct keys. -/
theorem c4_witness :
    ([⟨"k1", ["v"]⟩, ⟨"k2", ["w"]⟩] : List KeySearchTerm) ≠ [] ∧
    ∃ u v : String,
      search_fragments_key_sql "0123456789abcdef0123456789abcdef"
          [⟨"k1", ["v"]⟩, ⟨"k2", ["w"]⟩] {} =
        u ++ groupByHavingClause
            ([⟨"k1", ["v"]⟩, ⟨"k2", ["w"]⟩] : List KeySearchTerm).length ++ v :=
  ⟨by decide, c4_amended_having_counts_query_terms _ _ _ (by decide)⟩

/-- Helper: the chunk loop, entered right after `q` completed groups with `j`
lines already buffered in the current group, consumes the remaining
`lines_per_chunk - j` lines of the group as one chunk ending at the group
boundary. -/
theorem lineChunksLoop_group (lpc : Nat) (hl : 1 ≤ lpc) :
    ∀ (ls₁ : List Nat) (j q start bufLen : Nat) (ls₂ : List Nat),
      ls₁ ≠ [] → j + ls₁.length = lpc →
      lineChunksLoop lpc (q * lpc + j + 1) start bufLen (ls₁ ++ ls₂) =
        ((start, start + bufLen + ls₁.sum - 1) ::
          (lineChunksLoop lpc ((q + 1) * lpc + 1) (start + bufLen + ls₁.sum) 0 ls₂).1,
         (lineChunksLoop lpc ((q + 1) * lpc + 1) (start + bufLen + ls₁.sum) 0 ls₂).2) := by
  intro ls₁
  induction ls₁ with
  | nil =>
    intro j q start bufLen ls₂ hne _
    exact absurd rfl hne
  | cons l ls' ih =>
    intro j q start bufLen ls₂ _ hj
    simp only [List.length_cons] at hj
    rw [List.cons_append]
    by_cases hend : j + 1 = lpc
    · have hls' : ls' = [] := by
        have : ls'.length = 0 := by omega
        exact List.eq_nil_of_length_eq_zero this
      subst hls'
      simp only [lineChunksLoop]
      rw [if_pos (by
        rw [show q * lpc + j + 1 = (j + 1) + q * lpc from by ring,
          Nat.add_mul_mod_self_right, hend, Nat.mod_self])]
      have harith : q * lpc + j + 1 + 1 = (q + 1) * lpc + 1 := by
        rw [show (q + 1) * lpc = q * lpc + lpc from by ring]
        omega
      rw [harith]
      simp only [List.nil_append, List.sum_cons, List.sum_nil, Nat.add_zero]
      rw [show start + (bufLen + l) = start + bufLen + l from by omega]
    · have hcond : ¬(q * lpc + j + 1) % lpc = 0 := by
        rw [show q * lpc + j + 1 = (j + 1) + q * lpc from by ring,
          Nat.add_mul_mod_self_right]
        have hlt : j + 1 < lpc := by omega
        rw [Nat.mod_eq_of_lt hlt]
        omega
      simp only [lineChunksLoop]
      rw [if_neg hcond]
      rw [show q * lpc + j + 1 + 1 = q * lpc + (j + 1) + 1 from by omega]
      rw [ih (j + 1) q start (bufLen + l) ls₂
        (by intro h; rw [h] at hj; simp at hj; omega) (by omega)]
      simp only [List.sum_cons]
      rw [show start + (bufLen + l) + ls'.sum = start + bufLen + (l + ls'.sum) from by omega]

/-- Helper: entered at a group boundary on a list of exactly `k` whole groups
of `lines_per_chunk` lines, the chunk loop emits one chunk per group, the
i-th covering bytes `start + takeSum (i*lpc)` through
`start + takeSum ((i+1)*lpc) - 1`, and leaves `start` at the total byte sum. -/
theorem lineChunksLoop_groups (lpc : Nat) (hl : 1 ≤ lpc) :
    ∀ (k q start : Nat) (ls : List Nat), ls.length = k * lpc →
      lineChunksLoop lpc (q * lpc + 1) start 0 ls =
        ((List.range k).map fun i =>
          (start + takeSum ls (i * lpc), start + takeSum ls ((i + 1) * lpc) - 1),
         start + ls.sum) := by
  intro k
  induction k with
  | zero =>
    intro q start ls hlen
    have hnil : ls = [] := List.eq_nil_of_length_eq_zero (by simpa using hlen)
    subst hnil
    simp [lineChunksLoop]
  | succ k ih =>
    intro q start ls hlen
    obtain ⟨A, B, rfl, hA, hB⟩ :
        ∃ A B, ls = A ++ B ∧ A.length = lpc ∧ B.length = k * lpc := by
      refine ⟨ls.take lpc, ls.drop lpc, (List.take_append_drop lpc ls).symm, ?_, ?_⟩
      · rw [List.length_take]
        rw [Nat.succ_mul] at hlen
        omega
      · rw [List.length_drop]
        rw [Nat.succ_mul] at hlen
        omega
    have hAne : A ≠ [] := by
      intro h
      rw [h] at hA
      simp at hA
      omega
    have hg := lineChunksLoop_group lpc hl A 0 q start 0 B hAne (by omega)
    simp only [Nat.add_zero] at hg
    rw [hg]
    rw [ih (q + 1) (start + A.sum) B hB]
    have htkA : ∀ m : Nat, takeSum (A ++ B) (lpc + m) = A.sum + takeSum B m := by
      intro m
      unfold takeSum
      rw [← hA, List.take_append, List.sum_append]
    have htk0 : takeSum (A ++ B) lpc = A.sum := by
      unfold takeSum
      rw [List.take_left' hA]
    have ht0 : takeSum (A ++ B) 0 = 0 := by
      unfold takeSum
      simp
    refine Prod.ext ?_ ?_
  
    · show _ = (List.range (k + 1)).map _
      rw [List.range_succ_eq_map, List.map_cons, List.map_map]
      simp only [Nat.zero_mul, Nat.zero_add, Nat.one_mul, ht0, htk0, Nat.add_zero]
      congr 1
      refine List.map_congr_left ?_
      intro i _
      simp only [Function.comp_apply, Nat.succ_eq_add_one]
      have hf1 : takeSum (A ++ B) ((i + 1) * lpc) = A.sum + takeSum B (i * lpc) := by
        rw [show (i + 1) * lpc = lpc + i * lpc from by ring, htkA]
      have hf2 : takeSum (A ++ B) ((i + 1 + 1) * lpc) = A.sum + takeSum B ((i + 1) * lpc) := by
        rw [show (i + 1 + 1) * lpc = lpc + (i + 1) * lpc from by ring, htkA]
      rw [hf1, hf2]
      refine Prod.ext ?_ ?_ <;> simp only [] <;> omega
    · show _ = start + (A ++ B).sum
      rw [List.sum_append]
      omega

/-- Helper: prefix byte sums are monotone. -/
theorem takeSum_mono (ls : List Nat) {m n : Nat} (h : m ≤ n) :
    takeSum ls m ≤ takeSum ls n := by
  unfold takeSum
  rw [show n = m + (n - m) from by omega, List.take_add, List.sum_append]
  exact Nat.le_add_right _ _

/-- Helper: a nonempty prefix of a list of positive byte counts has positive
byte sum. -/
theorem takeSum_pos (ls : List Nat) (m : Nat) (hpos : ∀ l ∈ ls, 1 ≤ l)
    (hm : 1 ≤ m) (hle : m ≤ ls.length) : 1 ≤ takeSum ls m := by
  have hlen : (ls.take m).length = m := List.length_take_of_le hle
  obtain ⟨x, rest, hx⟩ := List.exists_cons_of_ne_nil
    (show ls.take m ≠ [] by
      intro h
      rw [h] at hlen
      simp at hlen
      omega)
  have hxmem : x ∈ ls := List.take_subset m ls (hx ▸ List.mem_cons_self x rest)
  have := hpos x hxmem
  unfold takeSum
  rw [hx, List.sum_cons]
  omega

/-- Helper: the whole-list prefix sum is the list sum. -/
theorem takeSum_length (ls : List Nat) : takeSum ls ls.length = ls.sum := by
  unfold takeSum
  rw [List.take_length]

/-- Helper: any byte offset below the k-group prefix sum falls in some group
interval. -/
theorem exists_cover_group (ls : List Nat) (lpc : Nat) :
    ∀ k b, b < takeSum ls (k * lpc) →
      ∃ i, i < k ∧ takeSum ls (i * lpc) ≤ b ∧ b < takeSum ls ((i + 1) * lpc) := by
  intro k
  induction k with
  | zero =>
    intro b hb
    unfold takeSum at hb
    simp at hb
  | succ k ih =>
    intro b hb
    by_cases hlt : b < takeSum ls (k * lpc)
    · obtain ⟨i, hik, h1, h2⟩ := ih b hlt
      exact ⟨i, by omega, h1, h2⟩
    · exact ⟨k, Nat.lt_succ_self k, by omega, hb⟩

/-- C7. On an artifact of exactly `k * lines_per_chunk` lines (k >= 1, every
line at least one byte) with content length the total byte sum,
`calc_line_chunks` yields exactly the k group chunks: the i-th chunk runs from
the byte sum of the first `i * lines_per_chunk` lines to one byte before the
next group boundary. Consequently there are k chunks, the first starts at
byte 0, consecutive chunks are contiguous (next start = previous end + 1),
the last ends at content_length - 1, every byte below content_length is
covered by some chunk, and chunks with smaller index end strictly before
later chunks start (no overlap). -/
theorem c7_line_chunks_exact_multiple
    (lineLens : List Nat) (lines_per_chunk k : Nat)
    (hk : 1 ≤ k) (hl : 1 ≤ lines_per_chunk)
    (hlen : lineLens.length = k * lines_per_chunk)
    (hpos : ∀ l ∈ lineLens, 1 ≤ l) :
    calc_line_chunks lineLens lines_per_chunk lineLens.sum =
      (List.range k).map (fun i =>
        (takeSum lineLens (i * lines_per_chunk),
         takeSum lineLens ((i + 1) * lines_per_chunk) - 1)) ∧
    (calc_line_chunks lineLens lines_per_chunk lineLens.sum).length = k ∧
    (calc_line_chunks lineLens lines_per_chunk lineLens.sum).head? =
      some (0, takeSum lineLens lines_per_chunk - 1) ∧
    (∀ i, i + 1 < k →
      ∃ e : Nat, (calc_line_chunks lineLens lines_per_chunk lineLens.sum)[i]? =
          some (takeSum lineLens (i * lines_per_chunk), e) ∧
        (calc_line_chunks lineLens lines_per_chunk lineLens.sum)[i + 1]? =
          some (e + 1, takeSum lineLens ((i + 2) * lines_per_chunk) - 1)) ∧
    (calc_line_chunks lineLens lines_per_chunk lineLens.sum)[k - 1]? =
      some (takeSum lineLens ((k - 1) * lines_per_chunk), lineLens.sum - 1) ∧
    (∀ b, b < lineLens.sum →
      ∃ (i p q : Nat), (calc_line_chunks lineLens lines_per_chunk lineLens.sum)[i]? =
        some (p, q) ∧ p ≤ b ∧ b ≤ q) ∧
    (∀ (i j p q r s : Nat),
      (calc_line_chunks lineLens lines_per_chunk lineLens.sum)[i]? = some (p, q) →
      (calc_line_chunks lineLens lines_per_chunk lineLens.sum)[j]? = some (r, s) →
      i < j → q < r) := by
  have hchar : calc_line_chunks lineLens lines_per_chunk lineLens.sum =
      (List.range k).map (fun i =>
        (takeSum lineLens (i * lines_per_chunk),
         takeSum lineLens ((i + 1) * lines_per_chunk) - 1)) := by
    unfold calc_line_chunks
    have hg := lineChunksLoop_groups lines_per_chunk hl k 0 0 lineLens hlen
    simp only [Nat.zero_mul, Nat.zero_add] at hg
    rw [hg]
    simp
  have hget : ∀ i, i < k →
      (calc_line_chunks lineLens lines_per_chunk lineLens.sum)[i]? =
        some (takeSum lineLens (i * lines_per_chunk),
          takeSum lineLens ((i + 1) * lines_per_chunk) - 1) := by
    intro i hi
    rw [hchar, List.getElem?_map, List.getElem?_range hi]
    rfl
  have hgsum : ∀ i, i + 1 ≤ k →
      1 ≤ takeSum lineLens ((i + 1) * lines_per_chunk) := by
    intro i hi
    refine takeSum_pos lineLens _ hpos ?_ ?_
    · nlinarith
    · rw [hlen]
      exact Nat.mul_le_mul_right _ hi
  refine ⟨hchar, ?_, ?_, ?_, ?_, ?_, ?_⟩
  · rw [hchar]
    simp
  · rw [hchar, List.head?_map, List.head?_range, if_neg (by omega)]
    simp [takeSum]
  · intro i hi
    refine ⟨takeSum lineLens ((i + 1) * lines_per_chunk) - 1, hget i (by omega), ?_⟩
    rw [hget (i + 1) (by omega)]
    have h1 : 1 ≤ takeSum lineLens ((i + 1) * lines_per_chunk) := hgsum i (by omega)
    congr 2
    omega
  · rw [hget (k - 1) (by omega)]
    rw [show (k - 1 + 1) * lines_per_chunk = k * lines_per_chunk from by
      congr 1
      omega]
    rw [← hlen, takeSum_length]
  · intro b hb
    rw [← takeSum_length lineLens, hlen] at hb
    obtain ⟨i, hik, h1, h2⟩ := exists_cover_group lineLens lines_per_chunk k b hb
    exact ⟨i, _, _, hget i hik, h1, by omega⟩
  · intro i j p q r s hi hj hij
    have hik : i < k := by
      by_contra hik
      rw [hchar] at hi
      rw [List.getElem?_eq_none (by simp; omega)] at hi
      exact Option.noConfusion hi
    have hjk : j < k := by
      by_contra hjk
      rw [hchar] at hj
      rw [List.getElem?_eq_none (by simp; omega)] at hj
      exact Option.noConfusion hj
    rw [hget i hik] at hi
    rw [hget j hjk] at hj
    obtain ⟨rfl, rfl⟩ : p = takeSum lineLens (i * lines_per_chunk) ∧
        q = takeSum lineLens ((i + 1) * lines_per_chunk) - 1 := by
      cases hi
      exact ⟨rfl, rfl⟩
    obtain ⟨rfl, rfl⟩ : r = takeSum lineLens (j * lines_per_chunk) ∧
        s = takeSum lineLens ((j + 1) * lines_per_chunk) - 1 := by
      cases hj
      exact ⟨rfl, rfl⟩
    have hmono : takeSum lineLens ((i + 1) * lines_per_chunk) ≤
        takeSum lineLens (j * lines_per_chunk) :=
      takeSum_mono lineLens (Nat.mul_le_mul_right _ (by omega))
    have h1 : 1 ≤ takeSum lineLens ((i + 1) * lines_per_chunk) := hgsum i (by omega)
    omega

/-- C7, witness: a four-line file (byte lengths 3, 4, 5, 6) chunked two lines
per chunk is exactly two contiguous chunks (0, 6) and (7, 17) covering
[0, 18). -/
theorem c7_witness :
    calc_line_chunks [3, 4, 5, 6] 2 ([3, 4, 5, 6] : List Nat).sum = [(0, 6), (7, 17)] ∧
    ([3, 4, 5, 6] : List Nat).length = 2 * 2 := by
  refine ⟨?_, by decide⟩
  rw [(c7_line_chunks_exact_multiple [3, 4, 5, 6] 2 2 (by decide) (by decide) (by decide)
    (by decide)).1]
  decide

/-- Helper: membership in the full outer join of the two diff sides. A pair is
either a matched (a, b) with equal external_id, an unmatched left row, or an
unmatched right row. -/
theorem mem_fullOuterRows (A B : List (String × String))
    (p : Option (String × String) × Option (String × String)) :
    p ∈ fullOuterRows A B ↔
      (∃ a ∈ A, ∃ b ∈ B, b.1 = a.1 ∧ p = (some a, some b)) ∨
      (∃ a ∈ A, (∀ b ∈ B, b.1 ≠ a.1) ∧ p = (some a, none)) ∨
      (∃ b ∈ B, (∀ a ∈ A, a.1 ≠ b.1) ∧ p = (none, some b)) := by
  unfold fullOuterRows
  rw [List.mem_append]
  constructor
  · rintro (h | h)
    · rw [List.mem_flatMap] at h
      obtain ⟨a, ha, hp⟩ := h
      by_cases he : (B.filter fun b => b.1 = a.1).isEmpty
      · rw [if_pos he] at hp
        simp only [List.mem_singleton] at hp
        subst hp
        refine Or.inr (Or.inl ⟨a, ha, ?_, rfl⟩)
        intro b hb hbeq
        have hmem : b ∈ B.filter fun x => x.1 = a.1 :=
          List.mem_filter.mpr ⟨hb, by simpa using hbeq⟩
        rw [List.isEmpty_iff] at he
        rw [he] at hmem
        simp at hmem
      · rw [if_neg he] at hp
        rw [List.mem_map] at hp
        obtain ⟨b, hb, rfl⟩ := hp
        have hbf := List.mem_filter.mp hb
        exact Or.inl ⟨a, ha, b, hbf.1, by simpa using hbf.2, rfl⟩
    · rw [List.mem_map] at h
      obtain ⟨b, hb, rfl⟩ := h
      have hbf := List.mem_filter.mp hb
      refine Or.inr (Or.inr ⟨b, hbf.1, ?_, rfl⟩)
      intro a ha haeq
      have hcond := hbf.2
      simp only [Bool.not_eq_true', List.any_eq_false, decide_eq_true_eq] at hcond
      exact absurd haeq (by simpa using hcond a ha)
  · rintro (⟨a, ha, b, hb, hbeq, rfl⟩ | ⟨a, ha, hnb, rfl⟩ | ⟨b, hb, hna, rfl⟩)
    · refine Or.inl (List.mem_flatMap.mpr ⟨a, ha, ?_⟩)
      have hbf : b ∈ B.filter fun x => x.1 = a.1 :=
        List.mem_filter.mpr ⟨hb, by simpa using hbeq⟩
      rw [if_neg (by
        rw [List.isEmpty_iff]
        intro h
        rw [h] at hbf
        simp at hbf)]
      exact List.mem_map.mpr ⟨b, hbf, rfl⟩
    · refine Or.inl (List.mem_flatMap.mpr ⟨a, ha, ?_⟩)
      rw [if_pos (by
        rw [List.isEmpty_iff]
        rw [List.filter_eq_nil_iff]
        intro b hb
        simpa using hnb b hb)]
      simp
    · refine Or.inr (List.mem_map.mpr ⟨b, ?_, rfl⟩)
      refine List.mem_filter.mpr ⟨hb, ?_⟩
      simp only [Bool.not_eq_true', List.any_eq_false, decide_eq_true_eq]
      intro a ha
      exact hna a ha

/-- Helper: a diff result contains an INSERTED row for `e` exactly when the
right side holds `e` and the left side does not. -/
theorem diff_mem_inserted_iff (A B : List (String × String)) (e : String) :
    (∃ row ∈ (fullOuterRows A B).map classifyPair,
        row.external_id = e ∧ row.change = Change.INSERTED) ↔
      ∃ b ∈ B, b.1 = e ∧ ∀ a ∈ A, a.1 ≠ b.1 := by
  constructor
  · rintro ⟨row, hrow, he, hch⟩
    rw [List.mem_map] at hrow
    obtain ⟨p, hp, rfl⟩ := hrow
    rcases (mem_fullOuterRows A B p).mp hp with
      ⟨a, _, b, _, _, rfl⟩ | ⟨a, _, _, rfl⟩ | ⟨b, hb, hna, rfl⟩
    · simp only [classifyPair] at hch
      split at hch <;> exact Change.noConfusion hch
    · exact Change.noConfusion hch
    · exact ⟨b, hb, he, hna⟩
  · rintro ⟨b, hb, he, hna⟩
    refine ⟨classifyPair (none, some b), List.mem_map.mpr
      ⟨(none, some b), (mem_fullOuterRows A B _).mpr (Or.inr (Or.inr ⟨b, hb, hna, rfl⟩)),
        rfl⟩, he, rfl⟩

/-- Helper: a diff result contains a DELETED row for `e` exactly when the left
side holds `e` and the right side does not. -/
theorem diff_mem_deleted_iff (A B : List (String × String)) (e : String) :
    (∃ row ∈ (fullOuterRows A B).map classifyPair,
        row.external_id = e ∧ row.change = Change.DELETED) ↔
      ∃ a ∈ A, a.1 = e ∧ ∀ b ∈ B, b.1 ≠ a.1 := by
  constructor
  · rintro ⟨row, hrow, he, hch⟩
    rw [List.mem_map] at hrow
    obtain ⟨p, hp, rfl⟩ := hrow
    rcases (mem_fullOuterRows A B p).mp hp with
      ⟨a, _, b, _, _, rfl⟩ | ⟨a, ha, hnb, rfl⟩ | ⟨b, _, _, rfl⟩
    · simp only [classifyPair] at hch
      split at hch <;> exact Change.noConfusion hch
    · exact ⟨a, ha, he, hnb⟩
    · exact Change.noConfusion hch
  · rintro ⟨a, ha, he, hnb⟩
    refine ⟨classifyPair (some a, none), List.mem_map.mpr
      ⟨(some a, none), (mem_fullOuterRows A B _).mpr (Or.inr (Or.inl ⟨a, ha, hnb, rfl⟩)),
        rfl⟩, he, rfl⟩

/-- Helper: a diff result contains an UPDATED row for `e` exactly when both
sides hold `e` with different artifact ids. -/
theorem diff_mem_updated_iff (A B : List (String × String)) (e : String) :
    (∃ row ∈ (fullOuterRows A B).map classifyPair,
        row.external_id = e ∧ row.change = Change.UPDATED) ↔
      ∃ a ∈ A, ∃ b ∈ B, b.1 = a.1 ∧ a.1 = e ∧ a.2 ≠ b.2 := by
  constructor
  · rintro ⟨row, hrow, he, hch⟩
    rw [List.mem_map] at hrow
    obtain ⟨p, hp, rfl⟩ := hrow
    rcases (mem_fullOuterRows A B p).mp hp with
      ⟨a, ha, b, hb, hbeq, rfl⟩ | ⟨a, _, _, rfl⟩ | ⟨b, _, _, rfl⟩
    · simp only [classifyPair] at hch he
      split at hch
      · next hne => exact ⟨a, ha, b, hb, hbeq, he, hne⟩
      · exact Change.noConfusion hch
    · exact Change.noConfusion hch
    · exact Change.noConfusion hch
  · rintro ⟨a, ha, b, hb, hbeq, he, hne⟩
    refine ⟨classifyPair (some a, some b), List.mem_map.mpr
      ⟨(some a, some b), (mem_fullOuterRows A B _).mpr (Or.inl ⟨a, ha, b, hb, hbeq, rfl⟩),
        rfl⟩, he, ?_⟩
    simp only [classifyPair]
    rw [if_pos hne]

/-- Helper: a diff result contains a NONE row for `e` exactly when both sides
hold `e` with the same artifact id. -/
theorem diff_mem_none_iff (A B : List (String × String)) (e : String) :
    (∃ row ∈ (fullOuterRows A B).map classifyPair,
        row.external_id = e ∧ row.change = Change.NONE) ↔
      ∃ a ∈ A, ∃ b ∈ B, b.1 = a.1 ∧ a.1 = e ∧ a.2 = b.2 := by
  constructor
  · rintro ⟨row, hrow, he, hch⟩
    rw [List.mem_map] at hrow
    obtain ⟨p, hp, rfl⟩ := hrow
    rcases (mem_fullOuterRows A B p).mp hp with
      ⟨a, ha, b, hb, hbeq, rfl⟩ | ⟨a, _, _, rfl⟩ | ⟨b, _, _, rfl⟩
    · simp only [classifyPair] at hch he
      split at hch
      · exact Change.noConfusion hch
      · next hne =>
        exact ⟨a, ha, b, hb, hbeq, he, not_ne_iff.mp hne⟩
    · exact Change.noConfusion hch
    · exact Change.noConfusion hch
  · rintro ⟨a, ha, b, hb, hbeq, he, heq⟩
    refine ⟨classifyPair (some a, some b), List.mem_map.mpr
      ⟨(some a, some b), (mem_fullOuterRows A B _).mpr (Or.inl ⟨a, ha, b, hb, hbeq, rfl⟩),
        rfl⟩, he, ?_⟩
    simp only [classifyPair]
    rw [if_neg (not_ne_iff.mpr heq)]

/-- Helper: the external_ids reported by a diff are those present on either
side. -/
theorem diff_mem_external_iff (A B : List (String × String)) (e : String) :
    (∃ row ∈ (fullOuterRows A B).map classifyPair, row.external_id = e) ↔
      (∃ a ∈ A, a.1 = e) ∨ (∃ b ∈ B, b.1 = e) := by
  constructor
  · rintro ⟨row, hrow, he⟩
    rw [List.mem_map] at hrow
    obtain ⟨p, hp, rfl⟩ := hrow
    rcases (mem_fullOuterRows A B p).mp hp with
      ⟨a, ha, b, _, _, rfl⟩ | ⟨a, ha, _, rfl⟩ | ⟨b, hb, _, rfl⟩
    · exact Or.inl ⟨a, ha, he⟩
    · exact Or.inl ⟨a, ha, he⟩
    · exact Or.inr ⟨b, hb, he⟩
  · rintro (⟨a, ha, he⟩ | ⟨b, hb, he⟩)
    · by_cases hmatch : ∃ b ∈ B, b.1 = a.1
      · obtain ⟨b, hb, hbeq⟩ := hmatch
        exact ⟨classifyPair (some a, some b), List.mem_map.mpr
          ⟨(some a, some b), (mem_fullOuterRows A B _).mpr
            (Or.inl ⟨a, ha, b, hb, hbeq, rfl⟩), rfl⟩,
          by
            simp only [classifyPair]
            exact he⟩
      · push_neg at hmatch
        exact ⟨classifyPair (some a, none), List.mem_map.mpr
          ⟨(some a, none), (mem_fullOuterRows A B _).mpr
            (Or.inr (Or.inl ⟨a, ha, hmatch, rfl⟩)), rfl⟩, he⟩
    · by_cases hmatch : ∃ a ∈ A, a.1 = b.1
      · obtain ⟨a, ha, haeq⟩ := hmatch
        exact ⟨classifyPair (some a, some b), List.mem_map.mpr
          ⟨(some a, some b), (mem_fullOuterRows A B _).mpr
            (Or.inl ⟨a, ha, b, hb, haeq.symm, rfl⟩), rfl⟩,
          by
            simp only [classifyPair]
            exact haeq.trans he⟩
      · push_neg at hmatch
        exact ⟨classifyPair (none, some b), List.mem_map.mpr
          ⟨(none, some b), (mem_fullOuterRows A B _).mpr
            (Or.inr (Or.inr ⟨b, hb, hmatch, rfl⟩)), rfl⟩, he⟩

/-- C8. `diff_generations` is symmetric under swapping its generation
arguments: for every catalog state, source and external_id, an INSERTED
classification in Diff(A, B) is a DELETED classification in Diff(B, A) and
vice versa, UPDATED and NONE classifications coincide in both directions, and
the same external_ids are reported. -/
theorem c8_diff_generations_symmetric (st : CatalogState) (source_id : String)
    (generation_id_a generation_id_b : Nat) (e : String) :
    ((∃ row ∈ diff_generations st source_id generation_id_a generation_id_b,
        row.external_id = e ∧ row.change = Change.INSERTED) ↔
      (∃ row ∈ diff_generations st source_id generation_id_b generation_id_a,
        row.external_id = e ∧ row.change = Change.DELETED)) ∧
    ((∃ row ∈ diff_generations st source_id generation_id_a generation_id_b,
        row.external_id = e ∧ row.change = Change.DELETED) ↔
      (∃ row ∈ diff_generations st source_id generation_id_b generation_id_a,
        row.external_id = e ∧ row.change = Change.INSERTED)) ∧
    ((∃ row ∈ diff_generations st source_id generation_id_a generation_id_b,
        row.external_id = e ∧ row.change = Change.UPDATED) ↔
      (∃ row ∈ diff_generations st source_id generation_id_b generation_id_a,
        row.external_id = e ∧ row.change = Change.UPDATED)) ∧
    ((∃ row ∈ diff_generations st source_id generation_id_a generation_id_b,
        row.external_id = e ∧ row.change = Change.NONE) ↔
      (∃ row ∈ diff_generations st source_id generation_id_b generation_id_a,
        row.external_id = e ∧ row.change = Change.NONE)) ∧
    ((∃ row ∈ diff_generations st source_id generation_id_a generation_id_b,
        row.external_id = e) ↔
      (∃ row ∈ diff_generations st source_id generation_id_b generation_id_a,
        row.external_id = e)) := by
  unfold diff_generations
  refine ⟨?_, ?_, ?_, ?_, ?_⟩
  · rw [diff_mem_inserted_iff, diff_mem_deleted_iff]
  · rw [diff_mem_deleted_iff, diff_mem_inserted_iff]
  · rw [diff_mem_updated_iff, diff_mem_updated_iff]
    constructor
    · rintro ⟨a, ha, b, hb, hbeq, he, hne⟩
      exact ⟨b, hb, a, ha, hbeq.symm, hbeq.trans he, fun h => hne h.symm⟩
    · rintro ⟨b, hb, a, ha, haeq, he, hne⟩
      exact ⟨a, ha, b, hb, haeq.symm, haeq.trans he, fun h => hne h.symm⟩
  · rw [diff_mem_none_iff, diff_mem_none_iff]
    constructor
    · rintro ⟨a, ha, b, hb, hbeq, he, heq⟩
      exact ⟨b, hb, a, ha, hbeq.symm, hbeq.trans he, heq.symm⟩
    · rintro ⟨b, hb, a, ha, haeq, he, heq⟩
      exact ⟨a, ha, b, hb, haeq.symm, haeq.trans he, heq.symm⟩
  · rw [diff_mem_external_iff, diff_mem_external_iff]
    exact Or.comm

/-- C2. When the source has a latest generation L and, after staging, both
change-detection counts against L are zero, `Intake.intake` creates no
generation: it returns None, leaves the generation and artifact tables
untouched (no promotion runs), leaves the staged rows in place in `stage`,
and the latest generation_id is still L. -/
theorem c2_intake_no_change_skips_promotion (st : CatalogState)
    (source_id stage_id : String) (created_on : Nat)
    (listing : List (String × Fingerprint)) (prov : Nat → String) (L : Nat)
    (hL : latestGenerationId st source_id = some L)
    (h1 : count_inserted_updated (stageAll st stage_id source_id created_on listing prov)
      stage_id source_id L = 0)
    (h2 : count_deleted (stageAll st stage_id source_id created_on listing prov)
      stage_id source_id L = 0) :
    (Intake.intake st source_id stage_id created_on listing prov).2 = none ∧
    (Intake.intake st source_id stage_id created_on listing prov).1.generation =
      st.generation ∧
    (Intake.intake st source_id stage_id created_on listing prov).1.artifact =
      st.artifact ∧
    (Intake.intake st source_id stage_id created_on listing prov).1.stage =
      st.stage ++ stagedRows stage_id source_id created_on listing prov ∧
    latestGenerationId (Intake.intake st source_id stage_id created_on listing prov).1
      source_id = some L := by
  have hLs : latestGenerationId (stageAll st stage_id source_id created_on listing prov)
      source_id = some L := hL
  simp only [Intake.intake]
  by_cases hnb : (batcher Intake.BATCH_SIZE listing).length = 0
  · rw [if_pos hnb]
    exact ⟨rfl, rfl, rfl, rfl, hLs⟩
  · rw [if_neg hnb]
    simp only [hLs]
    rw [if_pos ⟨h1, h2⟩]
    exact ⟨rfl, rfl, rfl, rfl, hLs⟩

/-- C2, witness: a source with one generation (id 100) holding one artifact,
re-listed unchanged; both counts are zero after staging, intake returns none
and the catalog keeps generation 100. -/
theorem c2_witness :
    (latestGenerationId
        ⟨[], [⟨"art1", "src", "e1", "v1", "text/plain", 5, 100⟩],
          [⟨"src", 100, "art1", 100⟩]⟩ "src" = some 100 ∧
      count_inserted_updated
        (stageAll ⟨[], [⟨"art1", "src", "e1", "v1", "text/plain", 5, 100⟩],
            [⟨"src", 100, "art1", 100⟩]⟩ "stg" "src" 200
          [("e1", ⟨"text/plain", 5, "v1"⟩)] (fun i => "prov" ++ toString i))
        "stg" "src" 100 = 0 ∧
      count_deleted
        (stageAll ⟨[], [⟨"art1", "src", "e1", "v1", "text/plain", 5, 100⟩],
            [⟨"src", 100, "art1", 100⟩]⟩ "stg" "src" 200
          [("e1", ⟨"text/plain", 5, "v1"⟩)] (fun i => "prov" ++ toString i))
        "stg" "src" 100 = 0) ∧
    (Intake.intake ⟨[], [⟨"art1", "src", "e1", "v1", "text/plain", 5, 100⟩],
        [⟨"src", 100, "art1", 100⟩]⟩ "src" "stg" 200
      [("e1", ⟨"text/plain", 5, "v1"⟩)] (fun i => "prov" ++ toString i)).2 = none ∧
    latestGenerationId
      (Intake.intake ⟨[], [⟨"art1", "src", "e1", "v1", "text/plain", 5, 100⟩],
          [⟨"src", 100, "art1", 100⟩]⟩ "src" "stg" 200
        [("e1", ⟨"text/plain", 5, "v1"⟩)] (fun i => "prov" ++ toString i)).1 "src" =
      some 100 := by
  refine ⟨⟨by decide, by decide, by decide⟩, ?_, ?_⟩
  · exact (c2_intake_no_change_skips_promotion _ _ _ _ _ _ 100 (by decide) (by decide)
      (by decide)).1
  · exact (c2_intake_no_change_skips_promotion _ _ _ _ _ _ 100 (by decide) (by decide)
      (by decide)).2.2.2.2

/-- Helper: pass 2 (insert-or-ignore on the artifact primary key) preserves
the (source_id, external_id, version) key invariant, provided every inserted
row either duplicates an existing artifact (same id and key) or carries a key
absent from the table, and the inserted rows have pairwise distinct keys. -/
theorem insertOrIgnore_preserves_keyFun :
    ∀ (rows acc : List ArtifactRow),
      ArtifactKeyFun acc →
      (∀ r ∈ rows,
        (∃ c ∈ acc, c.artifact_id = r.artifact_id ∧ c.source_id = r.source_id ∧
          c.external_id = r.external_id ∧ c.version = r.version) ∨
        (∀ c ∈ acc, ¬(c.source_id = r.source_id ∧ c.external_id = r.external_id ∧
          c.version = r.version))) →
      rows.Pairwise (fun r t => ¬(r.source_id = t.source_id ∧
        r.external_id = t.external_id ∧ r.version = t.version)) →
      ArtifactKeyFun (insertOrIgnoreArtifacts acc rows) := by
  intro rows
  induction rows with
  | nil =>
    intro acc hacc _ _
    exact hacc
  | cons r rows' ih =>
    intro acc hacc hdisj hpw
    show ArtifactKeyFun (List.foldl _ _ _)
    rw [List.foldl_cons]
    by_cases hid : acc.any fun a => a.artifact_id = r.artifact_id
    · rw [if_pos hid]
      refine ih acc hacc (fun t ht => hdisj t (List.mem_cons_of_mem r ht)) hpw.tail
    · rw [if_neg hid]
      have hnotid : ∀ a ∈ acc, a.artifact_id ≠ r.artifact_id := by
        intro a ha
        intro heq
        exact hid (List.any_eq_true.mpr ⟨a, ha, by simpa using heq⟩)
      have hunmatched : ∀ c ∈ acc, ¬(c.source_id = r.source_id ∧
          c.external_id = r.external_id ∧ c.version = r.version) := by
        rcases hdisj r (List.mem_cons_self r rows') with ⟨c, hc, hcid, _⟩ | h
        · exact absurd hcid (hnotid c hc)
        · exact h
      have hacc' : ArtifactKeyFun (acc ++ [r]) := by
        intro a ha b hb hs he hv
        rcases List.mem_append.mp ha with ha' | ha' <;>
          rcases List.mem_append.mp hb with hb' | hb'
        · exact hacc a ha' b hb' hs he hv
        · rw [List.mem_singleton] at hb'
          subst hb'
          exact absurd ⟨hs, he, hv⟩ (hunmatched a ha')
        · rw [List.mem_singleton] at ha'
          subst ha'
          exact absurd ⟨hs.symm, he.symm, hv.symm⟩ (hunmatched b hb')
        · rw [List.mem_singleton] at ha' hb'
          subst ha'
          subst hb'
          rfl
      refine ih (acc ++ [r]) hacc' ?_ hpw.tail
      intro t ht
      rcases hdisj t (List.mem_cons_of_mem r ht) with ⟨c, hc, hprop⟩ | h
      · exact Or.inl ⟨c, List.mem_append_left _ hc, hprop⟩
      · refine Or.inr ?_
        intro c hc
        rcases List.mem_append.mp hc with hc' | hc'
        · exact h c hc'
        · rw [List.mem_singleton] at hc'
          subst hc'
          exact List.rel_of_pairwise_cons hpw ht

/-- Helper: pass 1 never changes any stage column other than artifact_id. -/
theorem pass1Row_fields (A : List ArtifactRow) (stage_id : String) (batch_id : Nat)
    (source_id : String) (s : StageRow) :
    (pass1Row A stage_id batch_id source_id s).stage_id = s.stage_id ∧
    (pass1Row A stage_id batch_id source_id s).batch_id = s.batch_id ∧
    (pass1Row A stage_id batch_id source_id s).source_id = s.source_id ∧
    (pass1Row A stage_id batch_id source_id s).external_id = s.external_id ∧
    (pass1Row A stage_id batch_id source_id s).version = s.version ∧
    (pass1Row A stage_id batch_id source_id s).content_length = s.content_length ∧
    (pass1Row A stage_id batch_id source_id s).content_type = s.content_type ∧
    (pass1Row A stage_id batch_id source_id s).created_on = s.created_on := by
  unfold pass1Row
  by_cases hP : inBatch stage_id batch_id source_id s = true
  · rw [if_pos hP]
    cases findMatchingArtifact A s with
    | some a => exact ⟨rfl, rfl, rfl, rfl, rfl, rfl, rfl, rfl⟩
    | none => exact ⟨rfl, rfl, rfl, rfl, rfl, rfl, rfl, rfl⟩
  · rw [if_neg hP]
    exact ⟨rfl, rfl, rfl, rfl, rfl, rfl, rfl, rfl⟩

/-- Helper: pass 1 preserves membership in the batch filter. -/
theorem pass1Row_inBatch (A : List ArtifactRow) (stage_id : String) (batch_id : Nat)
    (source_id : String) (s : StageRow) :
    inBatch stage_id batch_id source_id (pass1Row A stage_id batch_id source_id s) =
      inBatch stage_id batch_id source_id s := by
  obtain ⟨h1, h2, h3, _⟩ := pass1Row_fields A stage_id batch_id source_id s
  unfold inBatch
  rw [h1, h2, h3]

/-- C1. The three-pass promotion preserves artifact identity. If the artifact
table maps each (source_id, external_id, version) to exactly one artifact_id,
and the staged batch carries pairwise distinct (external_id, version) pairs,
then after `insert_artifact_generation_batch` (1) the artifact table still
maps each (source_id, external_id, version) to exactly one artifact_id, and
(2) every stage row of the batch whose (source_id, external_id, version)
matched a pre-existing artifact is bound in the new generation to that
existing artifact_id, so an unchanged artifact keeps its artifact_id in the
new generation. -/
theorem c1_promotion_preserves_artifact_identity
    (st : CatalogState) (stage_id source_id : String) (batch_id : Nat)
    (hkey : ArtifactKeyFun st.artifact)
    (htriple : (st.stage.filter (inBatch stage_id batch_id source_id)).Pairwise
      (fun s t => ¬(s.external_id = t.external_id ∧ s.version = t.version))) :
    ArtifactKeyFun (insert_artifact_generation_batch st stage_id source_id batch_id).artifact ∧
    (∀ s ∈ st.stage, inBatch stage_id batch_id source_id s = true →
      ∀ a ∈ st.artifact, a.source_id = s.source_id → a.external_id = s.external_id →
        a.version = s.version →
        (⟨s.source_id, s.created_on, a.artifact_id, s.created_on⟩ : GenerationRow) ∈
          (insert_artifact_generation_batch st stage_id source_id batch_id).generation) := by
  have hbatch : (st.stage.map (pass1Row st.artifact stage_id batch_id source_id)).filter
      (inBatch stage_id batch_id source_id) =
      (st.stage.filter (inBatch stage_id batch_id source_id)).map
        (pass1Row st.artifact stage_id batch_id source_id) := by
    rw [List.filter_map]
    congr 1
    apply List.filter_congr
    intro s _
    exact pass1Row_inBatch st.artifact stage_id batch_id source_id s
  constructor
  · simp only [insert_artifact_generation_batch]
    rw [hbatch, List.map_map]
    apply insertOrIgnore_preserves_keyFun _ _ hkey
    · intro r hr
      rw [List.mem_map] at hr
      obtain ⟨s0, hs0, rfl⟩ := hr
      have hs0m := (List.mem_filter.mp hs0).1
      have hs0P := (List.mem_filter.mp hs0).2
      simp only [Function.comp_apply]
      cases hfind : findMatchingArtifact st.artifact s0 with
      | some a' =>
        have ha'mem : a' ∈ st.artifact := List.mem_of_find?_eq_some hfind
        have hpred := List.find?_some hfind
        simp only [Bool.and_eq_true, decide_eq_true_eq] at hpred
        obtain ⟨⟨hp1, hp2⟩, hp3⟩ := hpred
        have hfs : pass1Row st.artifact stage_id batch_id source_id s0 =
            { s0 with artifact_id := a'.artifact_id } := by
          unfold pass1Row
          rw [if_pos hs0P, hfind]
        refine Or.inl ⟨a', ha'mem, ?_, ?_, ?_, ?_⟩ <;>
          rw [hfs] <;> simp only [stageToArtifact]
        · exact hp1
        · exact hp2
        · exact hp3
      | none =>
        have hnone := List.find?_eq_none.mp hfind
        have hfs : pass1Row st.artifact stage_id batch_id source_id s0 = s0 := by
          unfold pass1Row
          rw [if_pos hs0P, hfind]
        refine Or.inr ?_
        intro c hc hconj
        refine hnone c hc ?_
        rw [hfs] at hconj
        simp only [stageToArtifact] at hconj
        simp only [Bool.and_eq_true, decide_eq_true_eq]
        exact ⟨⟨hconj.1, hconj.2.1⟩, hconj.2.2⟩
    · refine List.Pairwise.map _ ?_ htriple
      intro x y hxy hconj
      apply hxy
      obtain ⟨_, _, _, hex, hvx, _⟩ := pass1Row_fields st.artifact stage_id batch_id source_id x
      obtain ⟨_, _, _, hey, hvy, _⟩ := pass1Row_fields st.artifact stage_id batch_id source_id y
      simp only [Function.comp_apply, stageToArtifact] at hconj
      constructor
      · rw [← hex, ← hey]
        exact hconj.2.1
      · rw [← hvx, ← hvy]
        exact hconj.2.2
  · intro s hs hb a ha hsrc hext hver
    have hsome : (findMatchingArtifact st.artifact s).isSome := by
      unfold findMatchingArtifact
      rw [List.find?_isSome]
      exact ⟨a, ha, by simp [hsrc, hext, hver]⟩
    obtain ⟨a', hfind⟩ := Option.isSome_iff_exists.mp hsome
    have ha'mem : a' ∈ st.artifact := List.mem_of_find?_eq_some hfind
    have hpred := List.find?_some hfind
    simp only [Bool.and_eq_true, decide_eq_true_eq] at hpred
    obtain ⟨⟨hp1, hp2⟩, hp3⟩ := hpred
    have hid : a'.artifact_id = a.artifact_id :=
      hkey a' ha'mem a ha (hp1.trans hsrc.symm) (hp2.trans hext.symm) (hp3.trans hver.symm)
    have hfs : pass1Row st.artifact stage_id batch_id source_id s =
        { s with artifact_id := a'.artifact_id } := by
      unfold pass1Row
      rw [if_pos hb, hfind]
    simp only [insert_artifact_generation_batch]
    refine List.mem_append_right _ ?_
    refine List.mem_map.mpr ⟨pass1Row st.artifact stage_id batch_id source_id s, ?_, ?_⟩
    · refine List.mem_filter.mpr ⟨List.mem_map.mpr ⟨s, hs, rfl⟩, ?_⟩
      rw [pass1Row_inBatch]
      exact hb
    · rw [hfs]
      simp only [stageToGeneration]
      rw [hid]

/-- C1, witness: a one-row batch restaging an existing artifact. The key
invariant holds afterwards and the new generation row (generation_id 200)
binds the stage row to the pre-existing artifact_id "art1". -/
theorem c1_witness :
    (ArtifactKeyFun [⟨"art1", "src", "e1", "v1", "t", 5, 100⟩] ∧
      (([⟨"stg", 0, "src", "e1", "v1", 5, "t", 200, "prov0"⟩] :
          List StageRow).filter (inBatch "stg" 0 "src")).Pairwise
        (fun s t => ¬(s.external_id = t.external_id ∧ s.version = t.version))) ∧
    ArtifactKeyFun (insert_artifact_generation_batch
      ⟨[⟨"stg", 0, "src", "e1", "v1", 5, "t", 200, "prov0"⟩],
        [⟨"art1", "src", "e1", "v1", "t", 5, 100⟩],
        [⟨"src", 100, "art1", 100⟩]⟩ "stg" "src" 0).artifact ∧
    (⟨"src", 200, "art1", 200⟩ : GenerationRow) ∈
      (insert_artifact_generation_batch
        ⟨[⟨"stg", 0, "src", "e1", "v1", 5, "t", 200, "prov0"⟩],
          [⟨"art1", "src", "e1", "v1", "t", 5, 100⟩],
          [⟨"src", 100, "art1", 100⟩]⟩ "stg" "src" 0).generation :=
  ⟨⟨by unfold ArtifactKeyFun; decide, by decide⟩,
   (c1_promotion_preserves_artifact_identity
     ⟨[⟨"stg", 0, "src", "e1", "v1", 5, "t", 200, "prov0"⟩],
       [⟨"art1", "src", "e1", "v1", "t", 5, 100⟩],
       [⟨"src", 100, "art1", 100⟩]⟩ "stg" "src" 0 (by unfold ArtifactKeyFun; decide) (by decide)).1,
   (c1_promotion_preserves_artifact_identity
     ⟨[⟨"stg", 0, "src", "e1", "v1", 5, "t", 200, "prov0"⟩],
       [⟨"art1", "src", "e1", "v1", "t", 5, 100⟩],
       [⟨"src", 100, "art1", 100⟩]⟩ "stg" "src" 0 (by unfold ArtifactKeyFun; decide) (by decide)).2
     ⟨"stg", 0, "src", "e1", "v1", 5, "t", 200, "prov0"⟩ (by decide) (by decide)
     ⟨"art1", "src", "e1", "v1", "t", 5, 100⟩ (by decide) rfl rfl rfl⟩
